import Mathlib

/-!
Verification of the Cave-In pathfinding core against its specification.

The definitions below are a shallow embedding of the Python sources:
  * `src/utils/config.py`                      — constants and the direction list
  * `src/src/ai/pathfinding/path_calculator.py` — `PathCalculator` (grid queries and
    both breadth-first searches)
  * `src/src/ai/pathfinding/path_calculator/grid_scanner.py` — binary search over
    removal budgets and the visibility scan
  * `src/src/ai/pathfinding/pathfinder.py`      — route planning
  * `src/src/ai/pathfinding/action_handler.py`  — action decisions

Machine integers are modelled by `Int`/`Nat` (Python integers are unbounded),
the grid dictionary by an insertion-ordered association list, Python sets of
positions by sorted duplicate-free lists, and `float('inf')` initialisations of
"best so far" variables by `Option`.  Where the Python code computes with IEEE
doubles (the visibility scan's normalised vectors, truncated products and
position scores) the embedding uses exact arithmetic: `trunc (a * d / sqrt s)`
is computed exactly with an integer square root (`isqrt` below), and position
scores are exact rationals;
quantities that the scan only builds and never consumes (the direction
alignment term inside the score) are abstracted as a parameter.
-/

namespace CaveIn

/-! ## Configuration constants (src/utils/config.py) -/

/-- `GRID_SIZE: int = 10`. -/
def GRID_SIZE : Int := 10

/-- `VIEW_RADIUS: int = 4`. -/
def VIEW_RADIUS : Int := 4

/-- `STICK_VALUE: int = GRID_SIZE`. -/
def STICK_VALUE : Int := GRID_SIZE

/-- `Position: TypeAlias = Tuple[int, int]`. -/
abbrev Pos := Int × Int

/-- The cell classes of `src/cells`: `Cell` (empty), `Rock`, `Stick`, `Player`.
All four are (subclasses of) `Cell` in the source. -/
inductive CellT : Type where
  | empty : CellT
  | rock : CellT
  | stick : CellT
  | player : CellT
deriving DecidableEq, Repr

/-- `world.grid`: a Python dict from positions to cells, modelled as an
insertion-ordered association list with unique keys. -/
abbrev Grid := List (Pos × CellT)

/-- `self.world.grid.get(pos)`. -/
def Grid.get (g : Grid) (p : Pos) : Option CellT :=
  g.lookup p

/-- The player object: `position` and `facing.value` (a direction tuple). -/
structure PlayerV : Type where
  position : Pos
  facing : Pos
deriving DecidableEq, Repr

/-- The world state visible to the pathfinding core: the grid, the optional
player and the optional stats (`stats.sticks_collected`). -/
structure World : Type where
  grid : Grid
  player : Option PlayerV
  stats : Option Nat
deriving DecidableEq, Repr

/-- `PathCalculator.directions`: up, right, down, left — in that fixed order. -/
def directions : List Pos := [(0, -1), (1, 0), (0, 1), (-1, 0)]

/-! ## Grid queries (path_calculator.py, grid_analyzer.py) -/

/-- `_is_in_bounds`: `0 <= pos[0] < GRID_SIZE and 0 <= pos[1] < GRID_SIZE`. -/
def isInBounds (p : Pos) : Bool :=
  decide (0 ≤ p.1) && decide (p.1 < GRID_SIZE) && decide (0 ≤ p.2) && decide (p.2 < GRID_SIZE)

/-- `_is_valid_cell`: the looked-up cell is an instance of `(Cell, Rock, Stick)` —
since every cell class subclasses `Cell`, this is exactly "the position is
present in the grid dict". -/
def isValidCell (g : Grid) (p : Pos) : Bool :=
  (g.get p).isSome

/-- `_is_rock` / `GridAnalyzer.is_rock`: the looked-up cell is a `Rock`. -/
def isRock (g : Grid) (p : Pos) : Bool :=
  g.get p == some CellT.rock

/-- `_is_stick`: the looked-up cell is a `Stick`. -/
def isStick (g : Grid) (p : Pos) : Bool :=
  g.get p == some CellT.stick

/-- `_get_next_position`: offset the position, `None` when out of bounds. -/
def getNextPosition (p : Pos) (d : Pos) : Option Pos :=
  if isInBounds (p.1 + d.1, p.2 + d.2) then some (p.1 + d.1, p.2 + d.2) else none

/-- `_get_valid_neighbors` / `GridAnalyzer.get_valid_neighbors`: the in-bounds
neighbours (in the fixed direction order) holding a valid cell. -/
def getValidNeighbors (g : Grid) (p : Pos) : List Pos :=
  directions.filterMap fun d =>
    (getNextPosition p d).bind fun next =>
      if isValidCell g next then some next else none

/-! ## Removal sets

Python keeps `removed_rocks` as a `set` and canonicalises it as
`tuple(sorted(...))` for visitation keys.  We keep the set as a sorted
duplicate-free list, so the set and its canonical key coincide. -/

/-- Lexicographic order on positions (Python tuple ordering). -/
def posLe (a b : Pos) : Bool :=
  decide (a.1 < b.1) || (decide (a.1 = b.1) && decide (a.2 ≤ b.2))

/-- Insert a position into a sorted duplicate-free list (set `add`). -/
def insertPos (p : Pos) : List Pos → List Pos
  | [] => [p]
  | q :: rest =>
    if p = q then q :: rest
    else if posLe p q then p :: q :: rest
    else q :: insertPos p rest

/-- The rock-removal budget: `sticks_collected` when stats exist, otherwise
`float('inf')` — modelled as `Option Nat` with `none` = infinity. -/
abbrev Budget := Option Nat

/-- `len(removed_rocks) < max_rocks`, where `max_rocks` may be infinite. -/
def budgetLt (n : Nat) : Budget → Bool
  | none => true
  | some b => decide (n < b)

/-! ## BFS with rock removal (path_calculator.py) -/

/-- A queue entry of `_breadth_first_search_with_rocks`:
`(current, path, removed_rocks)`. -/
abbrev RockEntry := Pos × List Pos × List Pos

/-- A visitation key: `(pos, tuple(sorted(removed)))`. -/
abbrev RockState := Pos × List Pos

/-- `_is_valid_path_extension`: a rock may only be entered while the removal
set is below the budget. -/
def isValidPathExtension (g : Grid) (maxRocks : Budget) (pos : Pos)
    (removed : List Pos) : Bool :=
  if isRock g pos then budgetLt removed.length maxRocks else true

/-- `_update_removed_rocks`: add the position to (a copy of) the removal set
when it holds a rock. -/
def updateRemovedRocks (g : Grid) (pos : Pos) (removed : List Pos) : List Pos :=
  if isRock g pos then insertPos pos removed else removed

/-- `_try_path_through_position`: either rejects the extension, or returns the
new queue entry together with the enlarged visited set. -/
def tryPathThroughPosition (g : Grid) (maxRocks : Budget) (next : Pos)
    (path removed : List Pos) (visited : List RockState) :
    Option (RockEntry × List RockState) :=
  if !(isValidPathExtension g maxRocks next removed) then none
  else if visited.contains (next, updateRemovedRocks g next removed) then none
  else some ((next, path ++ [next], updateRemovedRocks g next removed),
             visited ++ [(next, updateRemovedRocks g next removed)])

/-- `_explore_neighbors`: fold `_try_path_through_position` over the valid
neighbours, appending accepted extensions to the queue. -/
def exploreNeighborsRocks (g : Grid) (maxRocks : Budget) (path removed : List Pos) :
    List Pos → List RockEntry → List RockState → List RockEntry × List RockState
  | [], queue, visited => (queue, visited)
  | n :: ns, queue, visited =>
    match tryPathThroughPosition g maxRocks n path removed visited with
    | some (entry, visited') =>
      exploreNeighborsRocks g maxRocks path removed ns (queue ++ [entry]) visited'
    | none => exploreNeighborsRocks g maxRocks path removed ns queue visited

/-- `_should_skip_path`: `len(path) >= best_length` (with `best_length`
infinite while no path has been found). -/
def shouldSkipPath (path : List Pos) (best : Option (List Pos)) : Bool :=
  match best with
  | some b => decide (b.length ≤ path.length)
  | none => false

/-- The `while queue:` loop of `_breadth_first_search_with_rocks`, with a fuel
counter standing in for the (always terminating) unbounded iteration; running
out of fuel returns the best path found so far. -/
def bfsRocksLoop (g : Grid) (target : Pos) (maxRocks : Budget) :
    Nat → List RockEntry → List RockState → Option (List Pos) → Option (List Pos)
  | 0, _, _, best => best
  | _ + 1, [], _, best => best
  | fuel + 1, (current, path, removed) :: rest, visited, best =>
    if shouldSkipPath path best then
      bfsRocksLoop g target maxRocks fuel rest visited best
    else if current = target then
      bfsRocksLoop g target maxRocks fuel rest visited (some path)
    else
      let step := exploreNeighborsRocks g maxRocks path removed
        (getValidNeighbors g current) rest visited
      bfsRocksLoop g target maxRocks fuel step.1 step.2 best

/-- Fuel bound for the BFS loops; any Python run of these searches on the
10 × 10 grid finishes in far fewer iterations. -/
def bfsFuel : Nat := 1000000

/-- `_breadth_first_search_with_rocks`. -/
def breadthFirstSearchWithRocks (g : Grid) (start target : Pos)
    (maxRocks : Budget) : Option (List Pos) :=
  bfsRocksLoop g target maxRocks bfsFuel [(start, [start], [])] [(start, [])] none

/-! ## BFS avoiding rocks (path_calculator.py) -/

/-- `_explore_rock_free_neighbors`: enqueue unvisited non-rock neighbours. -/
def exploreRockFreeNeighbors (g : Grid) (path : List Pos) :
    List Pos → List (Pos × List Pos) → List Pos → List (Pos × List Pos) × List Pos
  | [], queue, visited => (queue, visited)
  | n :: ns, queue, visited =>
    if !(visited.contains n) && !(isRock g n) then
      exploreRockFreeNeighbors g path ns (queue ++ [(n, path ++ [n])]) (visited ++ [n])
    else
      exploreRockFreeNeighbors g path ns queue visited

/-- The `while queue:` loop of `_breadth_first_search_no_rocks`.  The result is
wrapped in an extra `Option` layer: the outer `none` marks fuel exhaustion
(which theorem `bfsNoRocksLoopO_total` below rules out for the fuel actually
used), the inner value is the Python result. -/
def bfsNoRocksLoopO (g : Grid) (target : Pos) :
    Nat → List (Pos × List Pos) → List Pos → Option (Option (List Pos))
  | 0, _, _ => none
  | _ + 1, [], _ => some none
  | fuel + 1, (current, path) :: rest, visited =>
    if current = target then some (some path)
    else
      let step := exploreRockFreeNeighbors g path (getValidNeighbors g current) rest visited
      bfsNoRocksLoopO g target fuel step.1 step.2

/-- `_breadth_first_search_no_rocks`. -/
def breadthFirstSearchNoRocks (g : Grid) (start target : Pos) : Option (List Pos) :=
  (bfsNoRocksLoopO g target bfsFuel [(start, [start])] [start]).join

/-! ## The `PathCalculator` public interface (path_calculator.py) -/

/-- `find_path_to_position`: start at the player, with the rock budget taken
from `stats.sticks_collected` (infinite when stats are absent).  The optional
`heuristic` argument of the source is accepted but never used by the body, so
it is omitted here. -/
def findPathToPosition (w : World) (target : Pos) : Option (List Pos) :=
  match w.player with
  | none => none
  | some pl => breadthFirstSearchWithRocks w.grid pl.position target w.stats

/-- `find_path_without_rocks`.  (The source reads `world.player.position`
unconditionally; its callers establish that a player exists first.) -/
def findPathWithoutRocks (w : World) (target : Pos) : Option (List Pos) :=
  match w.player with
  | none => none
  | some pl => breadthFirstSearchNoRocks w.grid pl.position target

/-- `find_path_with_max_rocks`: the body is literally
`return self.find_path_to_position(target_pos)` — the budget argument is
unused. -/
def findPathWithMaxRocks (w : World) (maxRocks : Int) (target : Pos) :
    Option (List Pos) :=
  findPathToPosition w target

/-- `count_rocks_in_path`. -/
def countRocksInPath (g : Grid) (path : List Pos) : Nat :=
  (path.filter fun p => isRock g p).length

/-- `find_sticks`: stick positions in grid (dict) iteration order. -/
def findSticks (w : World) : List Pos :=
  (w.grid.filter fun e => e.2 == CellT.stick).map (·.1)

/-! ## Action decisions (action_handler.py) -/

/-- `GameWorld.is_board_full`: no position of the grid holds a bare empty
`Cell`. -/
def isBoardFull (w : World) : Bool :=
  (w.grid.filter fun e => e.2 == CellT.empty).length == 0

/-- `_get_target_position`: the cell directly ahead of the player; `None`
when there is no player. -/
def getTargetPosition (w : World) : Option Pos :=
  match w.player with
  | none => none
  | some pl => some (pl.position.1 + pl.facing.1, pl.position.2 + pl.facing.2)

/-- `_can_remove_rock`: stats exist, at least one stick has been collected,
and the target position lies on the handler's current path. -/
def canRemoveRock (w : World) (currentPath : List Pos) (targetPos : Pos) : Bool :=
  match w.stats with
  | some s => decide (0 < s) && currentPath.contains targetPos
  | none => false

/-- `_should_use_action_at` together with `_should_remove_rock`: act on a
stick; act on a rock only when `_can_remove_rock` allows it; never act on
anything else.  The outcome of actually performing the action
(`_attempt_action`, which calls into the world and records the clock) is
abstracted as the boolean `attemptResult`. -/
def shouldUseActionAt (w : World) (currentPath : List Pos) (attemptResult : Bool)
    (targetPos : Pos) : Bool :=
  match w.grid.get targetPos with
  | some CellT.stick => attemptResult
  | some CellT.rock =>
    if canRemoveRock w currentPath targetPos then attemptResult else false
  | _ => false

/-- `_is_action_possible`: the board is not full and `_can_act` holds
(`player.position` is truthy and the cooldown has expired; the clock
comparison is abstracted as `canActNow`). -/
def isActionPossible (w : World) (canActNow : Bool) : Bool :=
  !(isBoardFull w) && (w.player.isSome && canActNow)

/-- `ActionHandler.should_use_action`. -/
def shouldUseAction (w : World) (currentPath : List Pos)
    (canActNow attemptResult : Bool) : Bool :=
  if !(isActionPossible w canActNow) then false
  else
    match getTargetPosition w with
    | none => false
    | some t => shouldUseActionAt w currentPath attemptResult t

/-! ## Binary search over removal budgets
(`find_best_alternative_path` in grid_scanner.py and, identically,
`_find_best_alternative_path` in pathfinder.py) -/

/-- `score = (stick_value * mid) + len(path)`. -/
def bestAlternativeScore (stickValue mid : Int) (path : List Pos) : Int :=
  stickValue * mid + path.length

/-- `if score < best_score: best_score = score; best_path = path`, where the
initial `best_path = None, best_score = inf` pair is modelled as `none`. -/
def updateBest (path : List Pos) (score : Int) :
    Option (List Pos × Int) → Option (List Pos × Int)
  | some (bp, bs) => if score < bs then some (path, score) else some (bp, bs)
  | none => some (path, score)

/-- The `while left <= right:` binary-search loop, with `mid = (left+right)//2`
(Python floor division), probing `find_path_with_max_rocks(mid, target)`;
a successful probe updates the best and moves `right = mid - 1`, a failed one
moves `left = mid + 1`.  The fuel counter dominates the iteration count. -/
def bestAlternativeLoop (pathCalc : Int → Option (List Pos)) (stickValue : Int) :
    Nat → Int → Int → Option (List Pos × Int) → Option (List Pos × Int)
  | 0, _, _, best => best
  | fuel + 1, left, right, best =>
    if left ≤ right then
      match pathCalc (Int.fdiv (left + right) 2) with
      | some path =>
        bestAlternativeLoop pathCalc stickValue fuel left (Int.fdiv (left + right) 2 - 1)
          (updateBest path (bestAlternativeScore stickValue (Int.fdiv (left + right) 2) path) best)
      | none =>
        bestAlternativeLoop pathCalc stickValue fuel (Int.fdiv (left + right) 2 + 1) right best
    else best

/-- `find_best_alternative_path(max_rocks, target_pos, path_calculator,
stick_value)`: run the binary search over budgets `[0, max_rocks]` and return
`(best_path, best_score)`, or `None` when no probe succeeded. -/
def findBestAlternativePath (maxRocks : Int) (target : Pos)
    (pathCalc : Int → Pos → Option (List Pos)) (stickValue : Int) :
    Option (List Pos × Int) :=
  bestAlternativeLoop (fun b => pathCalc b target) stickValue (maxRocks.toNat + 2) 0 maxRocks none

/-- Invariant of the binary search when every probe returns the same route
`p`: the best-so-far, if set, carries `p` with a recorded score at least
`len(p)`. -/
def BestInv (p : List Pos) (best : Option (List Pos × Int)) : Prop :=
  best = none ∨ ∃ s : Int, best = some (p, s) ∧ (p.length : Int) ≤ s

/-! ## The visibility scan
(`_find_best_visible_position` / `_scan_for_best_position` in pathfinder.py
and `find_best_visible_position` / `scan_for_best_position` in
grid_scanner.py).

The Python code computes with IEEE doubles: the primary scan vector is
`normalize_vector(delta) = delta / sqrt s` (with `s = |delta|²`), the
secondary vector its perpendicular, and every scanned position applies
`int(...)` (truncation towards zero) to a product `component * k`.  The
embedding computes these truncations exactly over the reals using integer
square roots: for the tiny integer operands in range (|components| ≤
VIEW_RADIUS) the float and exact results coincide.  The direction-alignment
term of the score (a normalised dot product against the remembered momentum,
in [0,1], returning 1.0 when pos = target) is kept abstract as `align`. -/

/-- Exact integer square root (largest `k` with `k * k ≤ n`), by bounded
search so that the kernel can evaluate it. -/
def isqrt (n : Nat) : Nat :=
  (List.range (n + 1)).foldl (fun acc k => if k * k ≤ n then k else acc) 0

/-- The exact value of Python `int(a / sqrt s)` for integers `a`, `s > 0`:
`⌊|a| / √s⌋ = ⌊√(a² / s)⌋`, signed (truncation towards zero). -/
def truncDivSqrt (a s : Int) : Int :=
  if 0 ≤ a then (isqrt ((a * a) / s).toNat : Int)
  else -(isqrt ((a * a) / s).toNat : Int)

/-- `_get_main_scan_position`: `current + int(primary_vector * distance)`;
`normalize_vector` of the zero vector is `(0.0, 0.0)`. -/
def mainScanPosition (current delta : Pos) (d : Int) : Pos :=
  if delta = (0, 0) then (current.1 + 0, current.2 + 0)
  else (current.1 + truncDivSqrt (delta.1 * d) (delta.1 * delta.1 + delta.2 * delta.2),
        current.2 + truncDivSqrt (delta.2 * d) (delta.1 * delta.1 + delta.2 * delta.2))

/-- `_calculate_check_position`: `main + int(secondary_vector * offset)`, with
`secondary_vector = (-primary.y, primary.x)`. -/
def checkPosition (main delta : Pos) (offset : Int) : Pos :=
  if delta = (0, 0) then (main.1 + 0, main.2 + 0)
  else (main.1 + truncDivSqrt (-delta.2 * offset) (delta.1 * delta.1 + delta.2 * delta.2),
        main.2 + truncDivSqrt (delta.1 * offset) (delta.1 * delta.1 + delta.2 * delta.2))

/-- `_is_valid_position` (pathfinder.py) / `PositionScorer.is_valid_position`. -/
def isValidPosition (g : Grid) (p : Pos) : Bool :=
  isInBounds p && isValidCell g p

/-- Manhattan distance (the `progress_score` and the radius check). -/
def manhattan (a b : Pos) : Int :=
  |a.1 - b.1| + |a.2 - b.2|

/-- `_is_valid_check_position`: a valid position within `VIEW_RADIUS`
(Manhattan distance). -/
def isValidCheckPosition (g : Grid) (current check : Pos) : Bool :=
  isValidPosition g check && decide (manhattan current check ≤ VIEW_RADIUS)

/-- `range(-2, 3)` of the 5×5 density window. -/
def offsets5 : List Int := [-2, -1, 0, 1, 2]

/-- The valid cells of the 5×5 window centred on `p` (`checked_cells`). -/
def densityWindow (g : Grid) (p : Pos) : List Pos :=
  (offsets5.flatMap fun dx => offsets5.map fun dy => ((p.1 + dx, p.2 + dy) : Pos)).filter
    fun q => isValidPosition g q

/-- `_calculate_local_rock_density`: rocks / checked cells (0 when the window
holds no valid cell). -/
def localRockDensity (g : Grid) (p : Pos) : ℚ :=
  if (densityWindow g p).length = 0 then 0
  else ((densityWindow g p).filter fun q => isRock g q).length /
    ((densityWindow g p).length : ℚ)

/-- The abstract direction-alignment term `_calculate_direction_alignment(pos,
target)`: a float in [0,1] computed from the remembered momentum (1.0 when
pos = target); the theorems below hold for every such function. -/
abbrev AlignFn := Pos → Pos → ℚ

/-- `_score_position`:
`progress * (1 - alignment * 0.3) * (1 + density * 0.5)`. -/
def scorePosition (align : AlignFn) (g : Grid) (pos target : Pos) : ℚ :=
  (manhattan pos target : ℚ) * (1 - align pos target * (3 / 10)) *
    (1 + localRockDensity g pos * (1 / 2))

/-- One candidate of `_scan_perpendicular`: score it when valid and keep it
when strictly better; the initial `(best_pos, best_score) = (None, inf)` pair
is modelled as `none`. -/
def scanStep (align : AlignFn) (g : Grid) (current target : Pos) :
    Option (Pos × ℚ) → Pos → Option (Pos × ℚ)
  | some (bp, bs), check =>
    if isValidCheckPosition g current check then
      if scorePosition align g check target < bs then
        some (check, scorePosition align g check target)
      else some (bp, bs)
    else some (bp, bs)
  | none, check =>
    if isValidCheckPosition g current check then
      some (check, scorePosition align g check target)
    else none

/-- Python `range(-distance//2, distance//2 + 1)` (floor divisions). -/
def offsetRange (d : Int) : List Int :=
  (List.range (Int.fdiv d 2 + 1 - Int.fdiv (-d) 2).toNat).map
    fun i => Int.fdiv (-d) 2 + i

/-- `_scan_perpendicular`. -/
def scanPerpendicular (align : AlignFn) (g : Grid) (current target main delta : Pos)
    (d : Int) (best : Option (Pos × ℚ)) : Option (Pos × ℚ) :=
  (offsetRange d).foldl
    (fun b o => scanStep align g current target b (checkPosition main delta o)) best

/-- `for d in range(VIEW_RADIUS + 1)`. -/
def scanDistances : List Int :=
  (List.range (VIEW_RADIUS.toNat + 1)).map fun i => (i : Int)

/-- `_scan_for_best_position`, with `_calculate_scan_vectors` folded in:
`delta = target - current` determines the primary (`delta/√s`) and secondary
(perpendicular) unit vectors that the truncations are applied to. -/
def scanForBestPosition (align : AlignFn) (g : Grid) (current target : Pos) :
    Option Pos :=
  (scanDistances.foldl
    (fun best d =>
      scanPerpendicular align g current target
        (mainScanPosition current (target.1 - current.1, target.2 - current.2) d)
        (target.1 - current.1, target.2 - current.2) d best)
    none).map (·.1)

/-- `_find_best_visible_position` / `find_best_visible_position`. -/
def findBestVisiblePosition (align : AlignFn) (g : Grid) (current target : Pos) :
    Option Pos :=
  scanForBestPosition align g current target

/-- The offset of a scanned candidate relative to the agent: truncated
primary-vector step for distance `d` plus truncated secondary-vector step for
`offset` (`checkPosition ∘ mainScanPosition` is the translate of this by the
agent's position). -/
def relCheck (delta : Pos) (d o : Int) : Pos :=
  if delta = (0, 0) then (0, 0)
  else (truncDivSqrt (delta.1 * d) (delta.1 * delta.1 + delta.2 * delta.2) +
          truncDivSqrt (-delta.2 * o) (delta.1 * delta.1 + delta.2 * delta.2),
        truncDivSqrt (delta.2 * d) (delta.1 * delta.1 + delta.2 * delta.2) +
          truncDivSqrt (delta.1 * o) (delta.1 * delta.1 + delta.2 * delta.2))

/-- Invariant of the scan's best-so-far: the recorded score is the score of
the recorded position. -/
def ScanInv (align : AlignFn) (g : Grid) (target : Pos)
    (b : Option (Pos × ℚ)) : Prop :=
  b = none ∨ ∃ q, b = some (q, scorePosition align g q target)

/-- After the target has been scanned: a best exists and its score is ≤ 0. -/
def ScanLow (b : Option (Pos × ℚ)) : Prop :=
  ∃ q s, b = some (q, s) ∧ s ≤ 0

/-! ## State-threaded search wrappers (frame property)

To express that the searches never write to the grid, the BFS loops are
restated here threading the grid state through every iteration, exactly as
`self.world` is available to every step of the Python loops; the frame
theorems below prove the grid component is passed through unchanged (the
loops only read it — removal sets are search-internal bookkeeping). -/

def bfsRocksLoopS (target : Pos) (maxRocks : Budget) :
    Nat → Grid → List RockEntry → List RockState → Option (List Pos) →
    Grid × Option (List Pos)
  | 0, g, _, _, best => (g, best)
  | _ + 1, g, [], _, best => (g, best)
  | fuel + 1, g, (current, path, removed) :: rest, visited, best =>
    if shouldSkipPath path best then
      bfsRocksLoopS target maxRocks fuel g rest visited best
    else if current = target then
      bfsRocksLoopS target maxRocks fuel g rest visited (some path)
    else
      bfsRocksLoopS target maxRocks fuel g
        (exploreNeighborsRocks g maxRocks path removed (getValidNeighbors g current) rest visited).1
        (exploreNeighborsRocks g maxRocks path removed (getValidNeighbors g current) rest visited).2
        best

def bfsNoRocksLoopS (target : Pos) :
    Nat → Grid → List (Pos × List Pos) → List Pos → Grid × Option (List Pos)
  | 0, g, _, _ => (g, none)
  | _ + 1, g, [], _ => (g, none)
  | fuel + 1, g, (current, path) :: rest, visited =>
    if current = target then (g, some path)
    else
      bfsNoRocksLoopS target fuel g
        (exploreRockFreeNeighbors g path (getValidNeighbors g current) rest visited).1
        (exploreRockFreeNeighbors g path (getValidNeighbors g current) rest visited).2

/-- `find_path_to_position` with the world state made explicit: the result
together with the world as it stands after the call. -/
def findPathToPositionS (w : World) (target : Pos) : Option (List Pos) × World :=
  match w.player with
  | none => (none, w)
  | some pl =>
    ((bfsRocksLoopS target w.stats bfsFuel w.grid [(pl.position, [pl.position], [])]
        [(pl.position, [])] none).2,
     { w with grid := (bfsRocksLoopS target w.stats bfsFuel w.grid
         [(pl.position, [pl.position], [])] [(pl.position, [])] none).1 })

/-- `find_path_without_rocks` with the world state made explicit. -/
def findPathWithoutRocksS (w : World) (target : Pos) : Option (List Pos) × World :=
  match w.player with
  | none => (none, w)
  | some pl =>
    ((bfsNoRocksLoopS target bfsFuel w.grid [(pl.position, [pl.position])] [pl.position]).2,
     { w with grid := (bfsNoRocksLoopS target bfsFuel w.grid
         [(pl.position, [pl.position])] [pl.position]).1 })

/-- `find_path_with_max_rocks` with the world state made explicit. -/
def findPathWithMaxRocksS (w : World) (maxRocks : Int) (target : Pos) :
    Option (List Pos) × World :=
  findPathToPositionS w target

/-! ## Specification apparatus for the budgeted search -/

/-- Invariant of a queue entry of the budgeted BFS: the path starts at `start`,
and every rock cell beyond the start lies in the entry's removal set, whose
size never exceeds the budget `b`. -/
def EntryOK (g : Grid) (b : Nat) (start : Pos) (e : RockEntry) : Prop :=
  e.2.1.head? = some start ∧
  e.2.2.length ≤ b ∧
  ∀ x ∈ e.2.1.drop 1, isRock g x = true → x ∈ e.2.2

/-- A path honours the budget `b`: it starts at `start` and its rock cells
beyond the start fit into a removal set of size at most `b`. -/
def PathOK (g : Grid) (b : Nat) (start : Pos) (p : List Pos) : Prop :=
  p.head? = some start ∧
  ∃ R : List Pos, R.length ≤ b ∧ ∀ x ∈ p.drop 1, isRock g x = true → x ∈ R

/-! ## Route planning (pathfinder.py) -/

/-- Manhattan-closest stick: `_find_closest_stick` is Python `min` with a
distance key — the first stick (in grid iteration order) attaining the
minimum. -/
def findClosestStick (w : World) : Option Pos :=
  match w.player with
  | none => none
  | some pl =>
    match findSticks w with
    | [] => none
    | s :: rest =>
      some (rest.foldl (fun best p =>
        if manhattan p pl.position < manhattan best pl.position then p else best) s)

/-- `_has_valid_state`: a player exists and sticks are present. -/
def hasValidState (w : World) : Bool :=
  w.player.isSome && !(findSticks w).isEmpty

/-- `_find_initial_path`: builds a momentum heuristic (from the current path
or the player's facing) and passes it to `find_path_to_position` — which
accepts and ignores it, so the returned route is exactly
`find_path_to_position(target)`. -/
def findInitialPath (w : World) (target : Pos) : Option (List Pos) :=
  findPathToPosition w target

/-- `_optimize_path_with_rocks`, route selection only: if the initial route
crosses rocks, ask the budget binary search for an alternative and keep it
exactly when its score beats `len(path) + STICK_VALUE * rocks_in_path`. -/
def optimizePathWithRocks (w : World) (path : List Pos) (target : Pos) : List Pos :=
  if countRocksInPath w.grid path = 0 then path
  else
    match findBestAlternativePath (countRocksInPath w.grid path : Int) target
        (fun b t => findPathWithMaxRocks w b t) STICK_VALUE with
    | some (altPath, altScore) =>
      if altScore < (path.length : Int) + STICK_VALUE * (countRocksInPath w.grid path : Int)
      then altPath
      else path
    | none => path

/-- The route `_calculate_next_path` commits (`none` = `_clear_paths`),
computed from the world and the remembered last movement.  The
direction-alignment family used by `_score_position` depends on
`last_movement`, so it enters as `align last_movement`.  (The source reads
`world.player.position` inside `_find_and_set_path` after `_has_valid_state`
has established that a player exists; the inner `match` on the player mirrors
that access.) -/
def planRoute (align : Pos → AlignFn) (w : World) (lastMovement : Pos) :
    Option (List Pos) :=
  if !(hasValidState w) then none
  else
    match findClosestStick w with
    | none => none
    | some targetStick =>
      match findPathWithoutRocks w targetStick with
      | some path => some path
      | none =>
        match w.player with
        | none => none
        | some pl =>
          match findBestVisiblePosition (align lastMovement) w.grid pl.position
              targetStick with
          | none => none
          | some visibleTarget =>
            match findInitialPath w visibleTarget with
            | none => none
            | some path => some (optimizePathWithRocks w path visibleTarget)

/-- The mutable `PathFinder` state that `_calculate_next_path` touches: the
world, the committed route (`current_path`, the route minus the agent's own
cell), the action handler's stored path and the remembered last movement. -/
structure PFState : Type where
  world : World
  currentPath : List Pos
  actionPath : List Pos
  lastMovement : Pos

/-- `_calculate_next_path` as a state transformer: `_set_paths(path)` stores
`path[1:]` as the committed route and hands `path` to the action handler;
`_clear_paths` resets both. -/
def calculateNextPath (align : Pos → AlignFn) (s : PFState) : PFState :=
  match planRoute align s.world s.lastMovement with
  | some path => { s with currentPath := path.drop 1, actionPath := path }
  | none => { s with currentPath := [], actionPath := [] }

/-! ## Specification apparatus for the rock-free search (claim C2) -/

/-- One step of the rock-free search: the next cell is a valid neighbour and
not a rock (`_explore_rock_free_neighbors` conditions). -/
def stepOK (g : Grid) (x y : Pos) : Prop :=
  y ∈ getValidNeighbors g x ∧ isRock g y = false

instance stepOKDecidable (g : Grid) (x y : Pos) : Decidable (stepOK g x y) :=
  inferInstanceAs (Decidable (y ∈ getValidNeighbors g x ∧ isRock g y = false))

/-- A rock-free route from `start`: nonempty, starting at `start`, each cell a
valid non-rock neighbour of its predecessor (the start itself is never
examined by the search). -/
def NoRockPath (g : Grid) (start : Pos) (p : List Pos) : Prop :=
  p.head? = some start ∧ List.Chain' (stepOK g) p

instance noRockPathDecidable (g : Grid) (start : Pos) (p : List Pos) :
    Decidable (NoRockPath g start p) :=
  inferInstanceAs (Decidable (p.head? = some start ∧ List.Chain' (stepOK g) p))

/-- All in-bounds positions of the 10 × 10 grid. -/
def allBounded : List Pos :=
  (List.range 10).flatMap fun i => (List.range 10).map fun j => ((i : Int), (j : Int))

/-- The in-bounds positions as a finite set. -/
def boundedFinset : Finset Pos := allBounded.toFinset

/-- Number of in-bounds positions not yet visited: the termination measure of
the rock-free BFS (each iteration removes one queue entry and enqueues one
new entry per newly visited position). -/
def unvisitedCount (v : List Pos) : Nat :=
  (boundedFinset \ v.toFinset).card

/-- The loop invariant of the rock-free BFS: queue entries are valid routes in
breadth-first order, the visited set is consistent with the queue, and queue
entries are shortest routes to their endpoints. -/
structure NRInv (g : Grid) (start target : Pos)
    (q : List (Pos × List Pos)) (v : List Pos) : Prop where
  entries_valid : ∀ e ∈ q, NoRockPath g start e.2 ∧ e.2.getLast? = some e.1
  entries_vis : ∀ e ∈ q, e.1 ∈ v
  sorted : List.Pairwise (fun a b : Pos × List Pos => a.2.length ≤ b.2.length) q
  spread : ∀ a ∈ q, ∀ b ∈ q, a.2.length ≤ b.2.length + 1
  closed : ∀ x ∈ v, (∃ e ∈ q, e.1 = x) ∨ ∀ n, stepOK g x n → n ∈ v
  tgt_entry : target ∈ v → ∃ e ∈ q, e.1 = target
  start_vis : start ∈ v
  far : ∀ y p, NoRockPath g start p → p.getLast? = some y → y ∉ v →
    ∀ e, q.head? = some e → e.2.length + 1 ≤ p.length
  entries_min : ∀ e ∈ q, ∀ p, NoRockPath g start p → p.getLast? = some e.1 →
    e.2.length ≤ p.length
  vis_nodup : v.Nodup
  vis_dom : ∀ x ∈ v, x = start ∨ isInBounds x = true

/-! ## Concrete example worlds -/

/-- A small world: the player stands at (0,0) facing right, has collected 5
sticks, a rock sits at (1,0) and a stick (the target) at (2,0); every other
position is vacant (not in the grid dict, hence invalid for the search). -/
def exW1 : World :=
  { grid := [(((0 : Int), (0 : Int)), CellT.player),
             (((1 : Int), (0 : Int)), CellT.rock),
             (((2 : Int), (0 : Int)), CellT.stick)],
    player := some { position := ((0 : Int), (0 : Int)), facing := ((1 : Int), (0 : Int)) },
    stats := some 5 }

/-- Like `exW1`, but the player has collected no sticks: facing the rock at
(1,0) with zero credits. -/
def exW2 : World :=
  { grid := [(((0 : Int), (0 : Int)), CellT.player),
             (((1 : Int), (0 : Int)), CellT.rock),
             (((2 : Int), (0 : Int)), CellT.stick)],
    player := some { position := ((0 : Int), (0 : Int)), facing := ((1 : Int), (0 : Int)) },
    stats := some 0 }

/-- Like `exW1`, but with no rock: (1,0) is an empty cell, so a rock-free
route from the player at (0,0) to the stick at (2,0) exists. -/
def exW3 : World :=
  { grid := [(((0 : Int), (0 : Int)), CellT.player),
             (((1 : Int), (0 : Int)), CellT.empty),
             (((2 : Int), (0 : Int)), CellT.stick)],
    player := some { position := ((0 : Int), (0 : Int)), facing := ((1 : Int), (0 : Int)) },
    stats := some 0 }

/-! # Theorems -/

theorem getValidNeighbors_sound (g : Grid) (p q : Pos)
    (hq : q ∈ getValidNeighbors g p) :
    isInBounds q = true ∧ isValidCell g q = true := by
  unfold getValidNeighbors at hq
  rw [List.mem_filterMap] at hq
  obtain ⟨d, -, hd⟩ := hq
  rw [Option.bind_eq_some] at hd
  obtain ⟨np, hnext, hd⟩ := hd
  split at hd
  · next hv =>
    obtain rfl : np = q := Option.some_inj.1 hd
    refine ⟨?_, hv⟩
    unfold getNextPosition at hnext
    split at hnext
    · next hb =>
      obtain rfl : (p.1 + d.1, p.2 + d.2) = np := Option.some_inj.1 hnext
      exact hb
    · exact Option.noConfusion hnext
  · exact Option.noConfusion hd

/-! ## Budgeted-search invariants (claim C1) -/

theorem mem_insertPos (x p : Pos) (l : List Pos) :
    x ∈ insertPos p l ↔ x = p ∨ x ∈ l := by
  induction l with
  | nil => simp [insertPos]
  | cons q rest ih =>
    unfold insertPos
    split
    · next hpq =>
      subst hpq
      simp only [List.mem_cons]
      tauto
    · split
      · simp only [List.mem_cons]
      · simp only [List.mem_cons, ih]
        tauto

theorem length_insertPos (p : Pos) (l : List Pos) :
    (insertPos p l).length ≤ l.length + 1 := by
  induction l with
  | nil => simp [insertPos]
  | cons q rest ih =>
    unfold insertPos
    split
    · simp
    · split
      · simp
      · simpa using ih

theorem updateRemovedRocks_superset (g : Grid) (pos : Pos) (removed : List Pos)
    (x : Pos) (hx : x ∈ removed) : x ∈ updateRemovedRocks g pos removed := by
  unfold updateRemovedRocks
  split
  · exact (mem_insertPos x pos removed).2 (Or.inr hx)
  · exact hx

theorem updateRemovedRocks_self (g : Grid) (pos : Pos) (removed : List Pos)
    (h : isRock g pos = true) : pos ∈ updateRemovedRocks g pos removed := by
  unfold updateRemovedRocks
  rw [if_pos h]
  exact (mem_insertPos pos pos removed).2 (Or.inl rfl)

theorem tryPathThroughPosition_entryOK (g : Grid) (b : Nat) (start : Pos)
    (n : Pos) (path removed : List Pos) (visited : List RockState)
    (res : RockEntry × List RockState)
    (hok : EntryOK g b start (n, path, removed))
    (h : tryPathThroughPosition g (some b) n path removed visited = some res) :
    EntryOK g b start res.1 := by
  unfold tryPathThroughPosition at h
  split at h
  · exact Option.noConfusion h
  · next hval =>
    split at h
    · exact Option.noConfusion h
    · rw [Option.some_inj] at h
      subst h
      obtain ⟨hhead, hlen, hrocks⟩ := hok
      have hvalT : isValidPathExtension g (some b) n removed = true := by
        revert hval
        cases isValidPathExtension g (some b) n removed <;> simp
      refine ⟨?_, ?_, ?_⟩
      · show (path ++ [n]).head? = some start
        rcases path with _ | ⟨a, rest⟩
        · exact absurd hhead (by simp)
        · simpa using hhead
      · show (updateRemovedRocks g n removed).length ≤ b
        unfold updateRemovedRocks
        by_cases hr : isRock g n
        · rw [if_pos hr]
          have hlt : removed.length < b := by
            have hbudget : budgetLt removed.length (some b) = true := by
              unfold isValidPathExtension at hvalT
              rwa [if_pos hr] at hvalT
            simpa [budgetLt] using hbudget
          calc (insertPos n removed).length
              ≤ removed.length + 1 := length_insertPos n removed
            _ ≤ b := hlt
        · rw [if_neg hr]
          exact hlen
      · show ∀ x ∈ (path ++ [n]).drop 1, isRock g x = true → x ∈ updateRemovedRocks g n removed
        intro x hx hrx
        have hx2 : x ∈ path.drop 1 ++ [n] := by
          rcases path with _ | ⟨a, rest⟩
          · exact absurd hhead (by simp)
          · simpa using hx
        rcases List.mem_append.1 hx2 with hx3 | hx3
        · exact updateRemovedRocks_superset g n removed x (hrocks x hx3 hrx)
        · have hxn : x = n := by simpa using hx3
          subst hxn
          exact updateRemovedRocks_self g x removed hrx

theorem exploreNeighborsRocks_entryOK (g : Grid) (b : Nat) (start : Pos)
    (path removed : List Pos) (hok : ∀ n : Pos, EntryOK g b start (n, path, removed)) :
    ∀ (ns : List Pos) (queue : List RockEntry) (visited : List RockState),
    (∀ e ∈ queue, EntryOK g b start e) →
    ∀ e ∈ (exploreNeighborsRocks g (some b) path removed ns queue visited).1,
      EntryOK g b start e := by
  intro ns
  induction ns with
  | nil => intro queue visited hq e he; exact hq e he
  | cons n rest ih =>
    intro queue visited hq e he
    unfold exploreNeighborsRocks at he
    rcases htry : tryPathThroughPosition g (some b) n path removed visited with _ | ⟨entry, vis⟩
    · rw [htry] at he
      exact ih queue visited hq e he
    · rw [htry] at he
      refine ih (queue ++ [entry]) vis ?_ e he
      intro f hf
      rcases List.mem_append.1 hf with hf1 | hf1
      · exact hq f hf1
      · have hfe : f = entry := by simpa using hf1
        subst hfe
        exact tryPathThroughPosition_entryOK g b start n path removed visited
          (f, vis) (hok n) htry

theorem bfsRocksLoop_pathOK (g : Grid) (target : Pos) (b : Nat) (start : Pos) :
    ∀ (fuel : Nat) (queue : List RockEntry) (visited : List RockState)
      (best : Option (List Pos)),
    (∀ e ∈ queue, EntryOK g b start e) →
    (∀ p, best = some p → PathOK g b start p) →
    ∀ p, bfsRocksLoop g target (some b) fuel queue visited best = some p →
      PathOK g b start p := by
  intro fuel
  induction fuel with
  | zero => intro queue visited best _ hbest p hp; exact hbest p hp
  | succ fuel ih =>
    intro queue visited best hq hbest p hp
    match queue with
    | [] => exact hbest p hp
    | (current, path, removed) :: rest =>
      have hent := hq (current, path, removed) (List.mem_cons_self _ _)
      have hrest : ∀ e ∈ rest, EntryOK g b start e := fun e he => hq e (List.mem_cons_of_mem _ he)
      rw [bfsRocksLoop] at hp
      by_cases hskip : shouldSkipPath path best
      · rw [if_pos hskip] at hp
        exact ih rest visited best hrest hbest p hp
      · rw [if_neg hskip] at hp
        by_cases htgt : current = target
        · rw [if_pos htgt] at hp
          refine ih rest visited (some path) hrest ?_ p hp
          intro q hqq
          obtain rfl : path = q := by simpa using hqq
          exact ⟨hent.1, removed, hent.2.1, hent.2.2⟩
        · rw [if_neg htgt] at hp
          refine ih _ _ best ?_ hbest p hp
          refine exploreNeighborsRocks_entryOK g b start path removed ?_ _ rest visited hrest
          intro n
          exact ⟨hent.1, hent.2.1, hent.2.2⟩

theorem breadthFirstSearchWithRocks_pathOK (g : Grid) (start target : Pos)
    (b : Nat) (p : List Pos)
    (h : breadthFirstSearchWithRocks g start target (some b) = some p) :
    PathOK g b start p := by
  refine bfsRocksLoop_pathOK g target b start bfsFuel _ _ none ?_ ?_ p h
  · intro e he
    obtain rfl : e = (start, [start], ([] : List Pos)) := by simpa using he
    exact ⟨rfl, by simp, by simp⟩
  · intro q hq
    cases hq

theorem pathOK_card_le (g : Grid) (b : Nat) (start : Pos) (p : List Pos)
    (h : PathOK g b start p) :
    ((p.drop 1).filter fun q => isRock g q).toFinset.card ≤ b := by
  obtain ⟨-, R, hlen, hmem⟩ := h
  have hsub : ((p.drop 1).filter fun q => isRock g q).toFinset ⊆ R.toFinset := by
    intro x hx
    rw [List.mem_toFinset, List.mem_filter] at hx
    rw [List.mem_toFinset]
    exact hmem x hx.1 hx.2
  calc ((p.drop 1).filter fun q => isRock g q).toFinset.card
      ≤ R.toFinset.card := Finset.card_le_card hsub
    _ ≤ R.length := R.toFinset_card_le
    _ ≤ b := hlen

/-- C1 (counterexample).  `find_path_with_max_rocks` called with budget 0 on
`exW1` returns a route through the rock at (1,0): the route contains 1
obstacle cell, exceeding the requested budget of 0 — because the budget
argument is ignored and the effective budget is `sticks_collected = 5`. -/
theorem c1_counterexample :
    findPathWithMaxRocks exW1 0 ((2 : Int), (0 : Int)) =
      some [((0 : Int), (0 : Int)), (1, 0), (2, 0)] ∧
    countRocksInPath exW1.grid [((0 : Int), (0 : Int)), (1, 0), (2, 0)] = 1 ∧
    ¬ countRocksInPath exW1.grid [((0 : Int), (0 : Int)), (1, 0), (2, 0)] ≤ 0 := by
  refine ⟨by decide, by decide, by decide⟩

/-- C1 (amended).  Any route returned by `find_path_with_max_rocks` starts at
the player and contains at most `stats.sticks_collected` distinct obstacle
cells beyond its start — the search honours the budget it is actually given,
which is `sticks_collected`, not the `max_rocks` argument. -/
theorem c1_theorem (w : World) (maxRocks : Int) (target : Pos) (pl : PlayerV)
    (st : Nat) (p : List Pos)
    (hpl : w.player = some pl) (hst : w.stats = some st)
    (hp : findPathWithMaxRocks w maxRocks target = some p) :
    p.head? = some pl.position ∧
    ((p.drop 1).filter fun q => isRock w.grid q).toFinset.card ≤ st := by
  unfold findPathWithMaxRocks findPathToPosition at hp
  rw [hpl, hst] at hp
  have hOK := breadthFirstSearchWithRocks_pathOK w.grid pl.position target st p hp
  exact ⟨hOK.1, pathOK_card_le w.grid st pl.position p hOK⟩

/-- C1 witness: the amended theorem applied to the concrete world `exW1`. -/
theorem c1_theorem_witness :
    [((0 : Int), (0 : Int)), (1, 0), (2, 0)].head? = some ((0 : Int), (0 : Int)) ∧
    (([((0 : Int), (0 : Int)), (1, 0), (2, 0)].drop 1).filter
      fun q => isRock exW1.grid q).toFinset.card ≤ 5 :=
  c1_theorem exW1 0 ((2 : Int), (0 : Int))
    { position := ((0 : Int), (0 : Int)), facing := ((1 : Int), (0 : Int)) } 5
    [((0 : Int), (0 : Int)), (1, 0), (2, 0)] rfl rfl (by decide)

/-! ## Claim C3: the cost used by the budget binary search -/

theorem updateBest_bestInv (p : List Pos) (s : Int)
    (hs : (p.length : Int) ≤ s) (best : Option (List Pos × Int))
    (h : BestInv p best) : BestInv p (updateBest p s best) := by
  rcases h with h | ⟨t, h, ht⟩
  · subst h
    exact Or.inr ⟨s, rfl, hs⟩
  · subst h
    show BestInv p (if s < t then some (p, s) else some (p, t))
    by_cases hlt : s < t
    · rw [if_pos hlt]
      exact Or.inr ⟨s, rfl, hs⟩
    · rw [if_neg hlt]
      exact Or.inr ⟨t, rfl, ht⟩

theorem updateBest_len (p : List Pos) (best : Option (List Pos × Int))
    (h : BestInv p best) :
    updateBest p (p.length : Int) best = some (p, (p.length : Int)) := by
  rcases h with h | ⟨t, h, ht⟩
  · subst h
    rfl
  · subst h
    show (if (p.length : Int) < t then some (p, (p.length : Int)) else some (p, t)) = _
    by_cases hlt : (p.length : Int) < t
    · rw [if_pos hlt]
    · rw [if_neg hlt]
      have htp : t = (p.length : Int) := le_antisymm (by omega) ht
      rw [htp]

theorem bestAlternativeLoop_const (calcT : Int → Option (List Pos)) (p : List Pos)
    (hconst : ∀ b : Int, calcT b = some p) :
    ∀ (fuel : Nat) (right : Int) (best : Option (List Pos × Int)),
    ((0 ≤ right ∧ right.toNat < fuel ∧ BestInv p best) ∨
      (right < 0 ∧ best = some (p, (p.length : Int)))) →
    bestAlternativeLoop calcT STICK_VALUE fuel 0 right best = some (p, (p.length : Int)) := by
  intro fuel
  induction fuel with
  | zero =>
    intro right best h
    rcases h with ⟨h1, h2, -⟩ | ⟨-, h2⟩
    · omega
    · simpa [bestAlternativeLoop] using h2
  | succ fuel ih =>
    intro right best h
    rcases h with ⟨h0, hf, hinv⟩ | ⟨h1, h2⟩
    · rw [bestAlternativeLoop, if_pos h0, zero_add, hconst]
      show bestAlternativeLoop calcT STICK_VALUE fuel 0 (Int.fdiv right 2 - 1)
          (updateBest p (bestAlternativeScore STICK_VALUE (Int.fdiv right 2) p) best) =
        some (p, (p.length : Int))
      have hmid2 : Int.fdiv right 2 = right / 2 := Int.fdiv_eq_ediv _ (by norm_num)
      by_cases hm : Int.fdiv right 2 = 0
      · rw [hm]
        have hscore : bestAlternativeScore STICK_VALUE 0 p = (p.length : Int) := by
          simp [bestAlternativeScore]
        rw [hscore, updateBest_len p best hinv]
        exact ih (0 - 1) (some (p, (p.length : Int))) (Or.inr ⟨by omega, rfl⟩)
      · refine ih (Int.fdiv right 2 - 1)
          (updateBest p (bestAlternativeScore STICK_VALUE (Int.fdiv right 2) p) best)
          (Or.inl ⟨by omega, by omega, ?_⟩)
        refine updateBest_bestInv p _ ?_ best hinv
        have hm0 : (0 : Int) ≤ Int.fdiv right 2 := by omega
        unfold bestAlternativeScore STICK_VALUE GRID_SIZE
        omega
    · rw [bestAlternativeLoop, if_neg (by omega)]
      exact h2

/-- C3 (counterexample).  On `exW1` the binary search probes budget `mid = 0`,
which (the budget being ignored) returns the route through the rock at (1,0);
the score it computes and keeps is `STICK_VALUE * 0 + 3 = 3`, whereas the
claimed cost `STICK_VALUE × (obstacles actually present) + length` would be
`10 * 1 + 3 = 13`. -/
theorem c3_counterexample :
    findBestAlternativePath 1 ((2 : Int), (0 : Int))
        (fun b t => findPathWithMaxRocks exW1 b t) STICK_VALUE =
      some ([((0 : Int), (0 : Int)), (1, 0), (2, 0)], 3) ∧
    countRocksInPath exW1.grid [((0 : Int), (0 : Int)), (1, 0), (2, 0)] = 1 ∧
    (3 : Int) ≠ STICK_VALUE * 1 + 3 := by
  refine ⟨by decide, by decide, by decide⟩

/-- C3 (amended).  For every tried budget `mid` that yields a route, the cost
computed and compared is `STICK_VALUE * mid + len(route)` — the tried budget,
not the number of obstacles actually present in the returned route.  In
particular, since the path calculator it is given ignores its budget argument
(claim C4), every probe returns the same route `p`, the search descends to
budget 0, and the result kept is `(p, len(p))` whatever rocks `p` contains. -/
theorem c3_theorem (pathCalc : Int → Pos → Option (List Pos)) (target : Pos)
    (p : List Pos) (n : Int)
    (hconst : ∀ b : Int, pathCalc b target = some p) (hn : 0 ≤ n) :
    findBestAlternativePath n target pathCalc STICK_VALUE =
      some (p, (p.length : Int)) := by
  unfold findBestAlternativePath
  exact bestAlternativeLoop_const _ p (fun b => hconst b) _ n none
    (Or.inl ⟨hn, by omega, Or.inl rfl⟩)

/-- C3 witness: the amended theorem applied to `exW1`; the kept cost is the
route length 3, with the rock the route crosses priced at the tried budget 0
rather than at its actual count. -/
theorem c3_theorem_witness :
    findBestAlternativePath 1 ((2 : Int), (0 : Int))
        (fun b t => findPathWithMaxRocks exW1 b t) STICK_VALUE =
      some ([((0 : Int), (0 : Int)), (1, 0), (2, 0)],
        (([((0 : Int), (0 : Int)), (1, 0), (2, 0)] : List Pos).length : Int)) :=
  c3_theorem (fun b t => findPathWithMaxRocks exW1 b t) ((2 : Int), (0 : Int))
    [((0 : Int), (0 : Int)), (1, 0), (2, 0)] 1
    (fun _ => (by decide : findPathToPosition exW1 ((2 : Int), (0 : Int)) =
      some [((0 : Int), (0 : Int)), (1, 0), (2, 0)]))
    (by norm_num)

/-! ## Claim C4: the budget argument is dead -/

/-- C4.  `find_path_with_max_rocks` is independent of its budget argument:
for any two budgets it returns `find_path_to_position`, whose effective rock
budget is `stats.sticks_collected` (infinite when stats are absent). -/
theorem c4_theorem (w : World) (b1 b2 : Int) (target : Pos) (pl : PlayerV)
    (hpl : w.player = some pl) :
    findPathWithMaxRocks w b1 target = findPathWithMaxRocks w b2 target ∧
    findPathWithMaxRocks w b1 target = findPathToPosition w target ∧
    findPathToPosition w target =
      breadthFirstSearchWithRocks w.grid pl.position target w.stats := by
  refine ⟨rfl, rfl, ?_⟩
  unfold findPathToPosition
  rw [hpl]

/-- C4 witness: two different budgets on `exW1` probe the identical search. -/
theorem c4_theorem_witness :
    findPathWithMaxRocks exW1 0 ((2 : Int), (0 : Int)) =
      findPathWithMaxRocks exW1 7 ((2 : Int), (0 : Int)) ∧
    findPathWithMaxRocks exW1 0 ((2 : Int), (0 : Int)) =
      findPathToPosition exW1 ((2 : Int), (0 : Int)) ∧
    findPathToPosition exW1 ((2 : Int), (0 : Int)) =
      breadthFirstSearchWithRocks exW1.grid ((0 : Int), (0 : Int)) ((2 : Int), (0 : Int))
        exW1.stats :=
  c4_theorem exW1 0 7 ((2 : Int), (0 : Int))
    { position := ((0 : Int), (0 : Int)), facing := ((1 : Int), (0 : Int)) } rfl

/-! ## Claim C5: planning is idempotent and deterministic -/

theorem calculateNextPath_frame (align : Pos → AlignFn) (s : PFState) :
    (calculateNextPath align s).world = s.world ∧
    (calculateNextPath align s).lastMovement = s.lastMovement := by
  unfold calculateNextPath
  split <;> exact ⟨rfl, rfl⟩

theorem calculateNextPath_congr (align : Pos → AlignFn) (t1 t2 : PFState)
    (hw : t1.world = t2.world) (hlm : t1.lastMovement = t2.lastMovement) :
    (calculateNextPath align t1).currentPath = (calculateNextPath align t2).currentPath ∧
    (calculateNextPath align t1).actionPath = (calculateNextPath align t2).actionPath := by
  unfold calculateNextPath
  rw [hw, hlm]
  rcases hpr : planRoute align t2.world t2.lastMovement with _ | path <;>
    simp [hpr]

/-- C5.  Path planning is idempotent and deterministic: with no intervening
world mutation, running `_calculate_next_path` twice in a row commits the
identical route (and hands the identical path to the action handler) as
running it once, and the planning call itself leaves the world — and the
remembered movement feeding the momentum term — untouched.  The committed
route is a pure function of those two, the BFS neighbour order being the
fixed up/right/down/left `directions` list; the state the first call does
change (`current_path`) only feeds the momentum heuristic that
`find_path_to_position` accepts and ignores. -/
theorem c5_theorem (align : Pos → AlignFn) (s : PFState) :
    (calculateNextPath align (calculateNextPath align s)).currentPath =
      (calculateNextPath align s).currentPath ∧
    (calculateNextPath align (calculateNextPath align s)).actionPath =
      (calculateNextPath align s).actionPath ∧
    (calculateNextPath align s).world = s.world := by
  obtain ⟨hw, hlm⟩ := calculateNextPath_frame align s
  obtain ⟨h1, h2⟩ := calculateNextPath_congr align (calculateNextPath align s) s hw hlm
  exact ⟨h1, h2, hw⟩

/-! ## Claim C2: the rock-free search is correct and optimal -/

theorem path_all_mem (g : Grid) (v : List Pos)
    (hcl : ∀ x ∈ v, ∀ n, stepOK g x n → n ∈ v) :
    ∀ (p : List Pos) (a : Pos), a ∈ v → p.head? = some a →
      List.Chain' (stepOK g) p → ∀ x ∈ p, x ∈ v := by
  intro p
  induction p with
  | nil => intro a _ _ _ x hx; exact absurd hx (List.not_mem_nil x)
  | cons b rest ih =>
    intro a ha hhead hchain x hx
    obtain rfl : b = a := by simpa using hhead
    rcases List.mem_cons.mp hx with rfl | hx2
    · exact ha
    · rcases rest with _ | ⟨c, rest2⟩
      · exact absurd hx2 (List.not_mem_nil x)
      · have hbc : stepOK g b c := (List.chain'_cons.mp hchain).1
        exact ih c (hcl b ha c hbc) rfl (List.chain'_cons.mp hchain).2 x hx2

theorem path_no_rock (g : Grid) :
    ∀ (p : List Pos) (a : Pos), isRock g a = false → p.head? = some a →
      List.Chain' (stepOK g) p → ∀ x ∈ p, isRock g x = false := by
  intro p
  induction p with
  | nil => intro a _ _ _ x hx; exact absurd hx (List.not_mem_nil x)
  | cons b rest ih =>
    intro a ha hhead hchain x hx
    obtain rfl : b = a := by simpa using hhead
    rcases List.mem_cons.mp hx with rfl | hx2
    · exact ha
    · rcases rest with _ | ⟨c, rest2⟩
      · exact absurd hx2 (List.not_mem_nil x)
      · have hbc : stepOK g b c := (List.chain'_cons.mp hchain).1
        exact ih c hbc.2 rfl (List.chain'_cons.mp hchain).2 x hx2

theorem noRockPath_length_pos (g : Grid) (start : Pos) (p : List Pos)
    (h : NoRockPath g start p) : 1 ≤ p.length := by
  rcases p with _ | ⟨a, rest⟩
  · exact absurd h.1 (by simp)
  · simp

theorem noRockPath_singleton (g : Grid) (start : Pos) (p : List Pos) (y : Pos)
    (h : NoRockPath g start p) (hl : p.getLast? = some y) (hlen : p.length ≤ 1) :
    y = start := by
  rcases p with _ | ⟨a, rest⟩
  · exact absurd h.1 (by simp)
  · rcases rest with _ | ⟨b, rest2⟩
    · have h1 : a = start := by simpa using h.1
      have h2 : a = y := by simpa using hl
      rw [← h2, h1]
    · simp at hlen

theorem path_snoc_decomp (g : Grid) (start : Pos) (p : List Pos) (y : Pos)
    (hp : NoRockPath g start p) (hlast : p.getLast? = some y) (hlen : 2 ≤ p.length) :
    ∃ p0 z, p = p0 ++ [y] ∧ NoRockPath g start p0 ∧ p0.getLast? = some z ∧
      stepOK g z y ∧ p0.length + 1 = p.length := by
  have hne : p ≠ [] := by
    intro h
    rw [h] at hlen
    simp at hlen
  have hsplit : p.dropLast ++ [p.getLast hne] = p := List.dropLast_append_getLast hne
  have hy : p.getLast hne = y := by
    have := List.getLast?_eq_getLast p hne
    rw [this] at hlast
    exact Option.some_inj.mp hlast
  have hp0ne : p.dropLast ≠ [] := by
    intro h0
    have := congrArg List.length hsplit
    rw [h0] at this
    simp at this
    omega
  refine ⟨p.dropLast, p.dropLast.getLast hp0ne, ?_, ?_, ?_, ?_, ?_⟩
  · rw [← hy]
    exact hsplit.symm
  · constructor
    · have hh : p.head? = some start := hp.1
      rcases hd : p.dropLast with _ | ⟨a, rest⟩
      · exact absurd hd hp0ne
      · rw [← hsplit, hd] at hh
        simpa using hh
    · have hchain := hp.2
      rw [← hsplit] at hchain
      exact (List.chain'_append.mp hchain).1
  · exact (List.getLast?_eq_getLast _ hp0ne).symm ▸ rfl
  · have hchain := hp.2
    rw [← hsplit] at hchain
    have h3 := (List.chain'_append.mp hchain).2.2
    rw [hy] at h3
    exact h3 (p.dropLast.getLast hp0ne) (by rw [List.getLast?_eq_getLast _ hp0ne]; rfl) y rfl
  · have := congrArg List.length hsplit
    simpa using this

theorem exploreRockFree_spec (g : Grid) (path : List Pos) :
    ∀ (ns : List Pos) (queue : List (Pos × List Pos)) (visited : List Pos),
    ∃ A : List Pos,
      (exploreRockFreeNeighbors g path ns queue visited).1 =
        queue ++ A.map (fun n => (n, path ++ [n])) ∧
      (exploreRockFreeNeighbors g path ns queue visited).2 = visited ++ A ∧
      A.Nodup ∧
      (∀ n ∈ A, n ∈ ns ∧ n ∉ visited ∧ isRock g n = false) ∧
      (∀ n ∈ ns, isRock g n = false → n ∈ visited ++ A) := by
  intro ns
  induction ns with
  | nil =>
    intro queue visited
    exact ⟨[], by simp [exploreRockFreeNeighbors], by simp [exploreRockFreeNeighbors],
      List.nodup_nil, by simp, by simp⟩
  | cons n rest ih =>
    intro queue visited
    by_cases hcond : (!(visited.contains n) && !(isRock g n)) = true
    · obtain ⟨A, h1, h2, h3, h4, h5⟩ := ih (queue ++ [(n, path ++ [n])]) (visited ++ [n])
      have hnv : n ∉ visited := by
        rw [Bool.and_eq_true, Bool.not_eq_true', Bool.not_eq_true'] at hcond
        simpa using hcond.1
      have hnr : isRock g n = false := by
        rw [Bool.and_eq_true, Bool.not_eq_true', Bool.not_eq_true'] at hcond
        exact hcond.2
      refine ⟨n :: A, ?_, ?_, ?_, ?_, ?_⟩
      · simp only [exploreRockFreeNeighbors]
        rw [if_pos hcond, h1]
        simp
      · simp only [exploreRockFreeNeighbors]
        rw [if_pos hcond, h2]
        simp
      · refine List.nodup_cons.mpr ⟨?_, h3⟩
        intro hna
        have := (h4 n hna).2.1
        exact this (by simp)
      · intro m hm
        rcases List.mem_cons.mp hm with rfl | hm2
        · exact ⟨List.mem_cons_self _ _, hnv, hnr⟩
        · have hm4 := h4 m hm2
          refine ⟨List.mem_cons_of_mem _ hm4.1, ?_, hm4.2.2⟩
          intro hmv
          exact hm4.2.1 (by simp [hmv])
      · intro m hm hrock
        rcases List.mem_cons.mp hm with rfl | hm2
        · simp
        · have := h5 m hm2 hrock
          simpa [List.append_assoc] using this
    · obtain ⟨A, h1, h2, h3, h4, h5⟩ := ih queue visited
      refine ⟨A, ?_, ?_, h3, ?_, ?_⟩
      · simp only [exploreRockFreeNeighbors]
        rw [if_neg hcond]
        exact h1
      · simp only [exploreRockFreeNeighbors]
        rw [if_neg hcond]
        exact h2
      · intro m hm
        have := h4 m hm
        exact ⟨List.mem_cons_of_mem _ this.1, this.2⟩
      · intro m hm hrock
        rcases List.mem_cons.mp hm with rfl | hm2
        · have hcont : visited.contains m = true := by
            by_contra hc
            apply hcond
            rw [Bool.and_eq_true, Bool.not_eq_true', Bool.not_eq_true']
            exact ⟨Bool.eq_false_iff.mpr hc, hrock⟩
          exact List.mem_append_left _ (by simpa using hcont)
        · exact h5 m hm2 hrock

theorem far_push (g : Grid) (start target : Pos) (current : Pos) (path : List Pos)
    (rest : List (Pos × List Pos)) (v A : List Pos)
    (hinv : NRInv g start target ((current, path) :: rest) v)
    (hA_cov : ∀ n ∈ getValidNeighbors g current, isRock g n = false → n ∈ v ++ A)
    (hrest_big : ∀ e ∈ rest, path.length + 1 ≤ e.2.length)
    (y : Pos) (p : List Pos) (hp : NoRockPath g start p) (hpl : p.getLast? = some y)
    (hy : y ∉ v ++ A) :
    path.length + 2 ≤ p.length := by
  have hyv : y ∉ v := fun h => hy (List.mem_append_left _ h)
  have hfar_old : path.length + 1 ≤ p.length :=
    hinv.far y p hp hpl hyv (current, path) rfl
  by_contra hlt
  push_neg at hlt
  have hplen : p.length = path.length + 1 := by omega
  have hplen2 : 2 ≤ p.length := by
    have hys : y ≠ start := fun h => hyv (h ▸ hinv.start_vis)
    by_contra hsm
    push_neg at hsm
    exact hys (noRockPath_singleton g start p y hp hpl (by omega))
  obtain ⟨p0, z, hdec, hp0, hp0l, hzy, hp0len⟩ :=
    path_snoc_decomp g start p y hp hpl hplen2
  have hp0len2 : p0.length = path.length := by omega
  have hz_v : z ∈ v := by
    by_contra hzv
    have hzfar : path.length + 1 ≤ p0.length :=
      hinv.far z p0 hp0 hp0l hzv (current, path) rfl
    omega
  rcases hinv.closed z hz_v with ⟨e, he, he1⟩ | hcl
  · rcases List.mem_cons.mp he with heq | hin
    · have hzc : current = z := by
        rw [heq] at he1
        exact he1
      refine hy (hA_cov y ?_ hzy.2)
      rw [hzc]
      exact hzy.1
    · have hmin : e.2.length ≤ p0.length := by
        refine hinv.entries_min e (List.mem_cons_of_mem _ hin) p0 hp0 ?_
        rw [he1]
        exact hp0l
      have := hrest_big e hin
      omega
  · exact hy (List.mem_append_left _ (hcl y hzy))

theorem nrinv_step (g : Grid) (start target : Pos) (current : Pos)
    (path : List Pos) (rest : List (Pos × List Pos)) (v : List Pos)
    (hinv : NRInv g start target ((current, path) :: rest) v)
    (hnt : current ≠ target) :
    NRInv g start target
      (exploreRockFreeNeighbors g path (getValidNeighbors g current) rest v).1
      (exploreRockFreeNeighbors g path (getValidNeighbors g current) rest v).2 := by
  obtain ⟨A, hq, hv, hA_nd, hA_mem, hA_cov⟩ :=
    exploreRockFree_spec g path (getValidNeighbors g current) rest v
  rw [hq, hv]
  have hhead := hinv.entries_valid (current, path) (List.mem_cons_self _ _)
  have hpathv : NoRockPath g start path := hhead.1
  have hpathl : path.getLast? = some current := hhead.2
  have hpath_ne : path ≠ [] := by
    intro h
    rw [h] at hpathv
    exact absurd hpathv.1 (by simp)
  have hrest_valid : ∀ e ∈ rest, NoRockPath g start e.2 ∧ e.2.getLast? = some e.1 :=
    fun e he => hinv.entries_valid e (List.mem_cons_of_mem _ he)
  have hsorted_head : ∀ e ∈ rest, path.length ≤ e.2.length :=
    fun e he => (List.pairwise_cons.mp hinv.sorted).1 e he
  have hsorted_rest := (List.pairwise_cons.mp hinv.sorted).2
  have hspread_head : ∀ e ∈ rest, e.2.length ≤ path.length + 1 :=
    fun e he => hinv.spread e (List.mem_cons_of_mem _ he) (current, path)
      (List.mem_cons_self _ _)
  have hstep : ∀ n ∈ A, stepOK g current n := fun n hn =>
    ⟨(hA_mem n hn).1, (hA_mem n hn).2.2⟩
  have hA_new : ∀ n ∈ A, n ∉ v := fun n hn => (hA_mem n hn).2.1
  have hnewlen : ∀ n : Pos, (path ++ [n]).length = path.length + 1 := by
    intro n
    simp
  have hA_valid : ∀ n ∈ A, NoRockPath g start (path ++ [n]) ∧
      (path ++ [n]).getLast? = some n := by
    intro n hn
    refine ⟨⟨?_, ?_⟩, ?_⟩
    · rcases hpp : path with _ | ⟨a, t⟩
      · exact absurd hpp hpath_ne
      · have := hpathv.1
        rw [hpp] at this
        simpa using this
    · refine List.chain'_append.mpr ⟨hpathv.2, List.chain'_singleton n, ?_⟩
      intro x hx y2 hy2
      obtain rfl : current = x := by
        rw [hpathl] at hx
        simpa using hx
      obtain rfl : n = y2 := by simpa using hy2
      exact hstep n hn
    · simp
  have hA_min : ∀ n ∈ A, ∀ p2, NoRockPath g start p2 → p2.getLast? = some n →
      path.length + 1 ≤ p2.length := fun n hn p2 hp2 hpl2 =>
    hinv.far n p2 hp2 hpl2 (hA_new n hn) (current, path) rfl
  refine ⟨?_, ?_, ?_, ?_, ?_, ?_, ?_, ?_, ?_, ?_, ?_⟩
  · intro e he
    rcases List.mem_append.mp he with he2 | he2
    · exact hrest_valid e he2
    · obtain ⟨n, hn, rfl⟩ := List.mem_map.mp he2
      exact hA_valid n hn
  · intro e he
    rcases List.mem_append.mp he with he2 | he2
    · exact List.mem_append_left _ (hinv.entries_vis e (List.mem_cons_of_mem _ he2))
    · obtain ⟨n, hn, rfl⟩ := List.mem_map.mp he2
      exact List.mem_append_right _ hn
  · refine List.pairwise_append.mpr ⟨hsorted_rest, ?_, ?_⟩
    · refine List.pairwise_map.mpr (hA_nd.imp ?_)
      intro a b _
      simp
    · intro a ha b hb
      obtain ⟨n, hn, rfl⟩ := List.mem_map.mp hb
      have h1 := hspread_head a ha
      show a.2.length ≤ (path ++ [n]).length
      rw [hnewlen n]
      omega
  · intro a ha b hb
    rcases List.mem_append.mp ha with ha2 | ha2 <;>
      rcases List.mem_append.mp hb with hb2 | hb2
    · exact hinv.spread a (List.mem_cons_of_mem _ ha2) b (List.mem_cons_of_mem _ hb2)
    · obtain ⟨n, hn, rfl⟩ := List.mem_map.mp hb2
      have := hspread_head a ha2
      show a.2.length ≤ (path ++ [n]).length + 1
      rw [hnewlen n]
      omega
    · obtain ⟨n, hn, rfl⟩ := List.mem_map.mp ha2
      have := hsorted_head b hb2
      show (path ++ [n]).length ≤ b.2.length + 1
      rw [hnewlen n]
      omega
    · obtain ⟨n, hn, rfl⟩ := List.mem_map.mp ha2
      obtain ⟨m, hm, rfl⟩ := List.mem_map.mp hb2
      show (path ++ [n]).length ≤ (path ++ [m]).length + 1
      rw [hnewlen n, hnewlen m]
      omega
  · intro x hx
    rcases List.mem_append.mp hx with hx2 | hx2
    · rcases hinv.closed x hx2 with ⟨e, he, he1⟩ | hcl
      · rcases List.mem_cons.mp he with heq | hin
        · right
          intro n hn
          have hxc : current = x := by
            rw [heq] at he1
            exact he1
          refine hA_cov n ?_ hn.2
          rw [hxc]
          exact hn.1
        · exact Or.inl ⟨e, List.mem_append_left _ hin, he1⟩
      · right
        intro n hn
        exact List.mem_append_left _ (hcl n hn)
    · exact Or.inl ⟨(x, path ++ [x]),
        List.mem_append_right _ (List.mem_map_of_mem _ hx2), rfl⟩
  · intro htv
    rcases List.mem_append.mp htv with h2 | h2
    · obtain ⟨e, he, he1⟩ := hinv.tgt_entry h2
      rcases List.mem_cons.mp he with heq | hin
      · refine absurd ?_ hnt
        rw [heq] at he1
        exact he1
      · exact ⟨e, List.mem_append_left _ hin, he1⟩
    · exact ⟨(target, path ++ [target]),
        List.mem_append_right _ (List.mem_map_of_mem _ h2), rfl⟩
  · exact List.mem_append_left _ hinv.start_vis
  · intro y p2 hp2 hpl2 hy e2 hh
    rcases hrest : rest with _ | ⟨e1, rest2⟩
    · rw [hrest] at hh
      simp only [List.nil_append] at hh
      rcases hA : A with _ | ⟨n0, A2⟩
      · rw [hA] at hh
        exact absurd hh (by simp)
      · rw [hA] at hh
        simp only [List.map_cons, List.head?_cons] at hh
        have he2 : e2 = (n0, path ++ [n0]) := (Option.some_inj.mp hh).symm
        have hpush := far_push g start target current path rest v A hinv hA_cov
          (by
            rw [hrest]
            intro e he
            exact absurd he (List.not_mem_nil e)) y p2 hp2 hpl2 hy
        rw [he2]
        show (path ++ [n0]).length + 1 ≤ p2.length
        rw [hnewlen n0]
        omega
    · rw [hrest] at hh
      simp only [List.cons_append, List.head?_cons] at hh
      have he2 : e2 = e1 := (Option.some_inj.mp hh).symm
      have h1 : path.length ≤ e1.2.length := by
        refine hsorted_head e1 ?_
        rw [hrest]
        exact List.mem_cons_self _ _
      have h2 : e1.2.length ≤ path.length + 1 := by
        refine hspread_head e1 ?_
        rw [hrest]
        exact List.mem_cons_self _ _
      have hyv : y ∉ v := fun h => hy (List.mem_append_left _ h)
      have hfo : path.length + 1 ≤ p2.length :=
        hinv.far y p2 hp2 hpl2 hyv (current, path) rfl
      rcases Nat.eq_or_lt_of_le h2 with hc | hc
      · have hpush := far_push g start target current path rest v A hinv hA_cov
          (by
            intro e he
            rw [hrest] at he
            have hsr := hsorted_rest
            rw [hrest] at hsr
            rcases List.mem_cons.mp he with rfl | hin
            · omega
            · have := (List.pairwise_cons.mp hsr).1 e hin
              omega) y p2 hp2 hpl2 hy
        rw [he2]
        omega
      · rw [he2]
        omega
  · intro e he p2 hp2 hpl2
    rcases List.mem_append.mp he with he2 | he2
    · exact hinv.entries_min e (List.mem_cons_of_mem _ he2) p2 hp2 hpl2
    · obtain ⟨n, hn, rfl⟩ := List.mem_map.mp he2
      have := hA_min n hn p2 hp2 hpl2
      show (path ++ [n]).length ≤ p2.length
      rw [hnewlen n]
      omega
  · refine List.nodup_append.mpr ⟨hinv.vis_nodup, hA_nd, ?_⟩
    intro a ha haA
    exact hA_new a haA ha
  · intro x hx
    rcases List.mem_append.mp hx with hx2 | hx2
    · exact hinv.vis_dom x hx2
    · exact Or.inr (getValidNeighbors_sound g current x (hA_mem x hx2).1).1

theorem mem_allBounded (p : Pos) (h : isInBounds p = true) : p ∈ allBounded := by
  unfold isInBounds at h
  simp only [Bool.and_eq_true, decide_eq_true_eq] at h
  obtain ⟨⟨⟨h1, h2⟩, h3⟩, h4⟩ := h
  have h2b : p.1 < 10 := h2
  have h4b : p.2 < 10 := h4
  have hpair : p = ((p.1.toNat : Int), (p.2.toNat : Int)) := by
    refine Prod.ext_iff.mpr
      ⟨(Int.toNat_of_nonneg h1).symm, (Int.toNat_of_nonneg h3).symm⟩
  rw [hpair]
  simp only [allBounded, List.mem_flatMap, List.mem_map, List.mem_range]
  refine ⟨p.1.toNat, by omega, (p.2.toNat : Int), ?_, rfl⟩
  simp only [List.pure_def, List.bind_eq_flatMap, List.mem_flatMap,
    List.mem_cons, List.mem_range]
  exact ⟨p.2.toNat, by omega, Or.inl rfl⟩

theorem unvisitedCount_append (v A : List Pos) (hnd : A.Nodup)
    (hmem : ∀ a ∈ A, isInBounds a = true ∧ a ∉ v) :
    unvisitedCount (v ++ A) + A.length = unvisitedCount v := by
  unfold unvisitedCount
  have hsub : A.toFinset ⊆ boundedFinset \ v.toFinset := by
    intro a ha
    rw [List.mem_toFinset] at ha
    rw [Finset.mem_sdiff]
    refine ⟨?_, ?_⟩
    · unfold boundedFinset
      exact List.mem_toFinset.mpr (mem_allBounded a (hmem a ha).1)
    · intro hv
      exact (hmem a ha).2 (List.mem_toFinset.mp hv)
  have heq : boundedFinset \ (v ++ A).toFinset =
      (boundedFinset \ v.toFinset) \ A.toFinset := by
    ext x
    simp only [List.toFinset_append, Finset.mem_sdiff, Finset.mem_union]
    constructor
    · rintro ⟨hb, hna⟩
      exact ⟨⟨hb, fun hv => hna (Or.inl hv)⟩, fun ha2 => hna (Or.inr ha2)⟩
    · rintro ⟨⟨hb, hv⟩, ha2⟩
      exact ⟨hb, fun hor => hor.elim hv ha2⟩
  rw [heq, Finset.card_sdiff hsub]
  have hA : A.toFinset.card = A.length := List.toFinset_card_of_nodup hnd
  rw [hA]
  have hle : A.length ≤ (boundedFinset \ v.toFinset).card := by
    rw [← hA]
    exact Finset.card_le_card hsub
  omega

theorem bfsNoRocksLoopO_total (g : Grid) (target : Pos) :
    ∀ (fuel : Nat) (q : List (Pos × List Pos)) (v : List Pos),
    q.length + unvisitedCount v < fuel →
    (bfsNoRocksLoopO g target fuel q v).isSome = true := by
  intro fuel
  induction fuel with
  | zero => intro q v h; omega
  | succ fuel ih =>
    intro q v h
    match q with
    | [] => rfl
    | (current, path) :: rest =>
      rw [bfsNoRocksLoopO]
      by_cases ht : current = target
      · rw [if_pos ht]
        rfl
      · rw [if_neg ht]
        obtain ⟨A, h1, h2, h3, h4, -⟩ :=
          exploreRockFree_spec g path (getValidNeighbors g current) rest v
        show (bfsNoRocksLoopO g target fuel
          (exploreRockFreeNeighbors g path (getValidNeighbors g current) rest v).1
          (exploreRockFreeNeighbors g path (getValidNeighbors g current) rest v).2).isSome
            = true
        rw [h1, h2]
        refine ih _ _ ?_
        have hdrop := unvisitedCount_append v A h3 (fun a ha =>
          ⟨(getValidNeighbors_sound g current a (h4 a ha).1).1, (h4 a ha).2.1⟩)
        have hlq : (rest ++ A.map fun n => (n, path ++ [n])).length =
            rest.length + A.length := by
          simp
        rw [hlq]
        have hql : ((current, path) :: rest).length = rest.length + 1 := by simp
        rw [hql] at h
        omega

theorem bfsNoRocksLoopO_correct (g : Grid) (start target : Pos) :
    ∀ (fuel : Nat) (q : List (Pos × List Pos)) (v : List Pos),
    NRInv g start target q v →
    ∀ res, bfsNoRocksLoopO g target fuel q v = some res →
    (∀ p, res = some p → NoRockPath g start p ∧ p.getLast? = some target ∧
      ∀ p2, NoRockPath g start p2 → p2.getLast? = some target →
        p.length ≤ p2.length) ∧
    (res = none → ∀ p2, NoRockPath g start p2 → p2.getLast? = some target →
      False) := by
  intro fuel
  induction fuel with
  | zero => intro q v _ res hres; exact Option.noConfusion hres
  | succ fuel ih =>
    intro q v hinv res hres
    match q with
    | [] =>
      rw [bfsNoRocksLoopO] at hres
      obtain rfl : (none : Option (List Pos)) = res := Option.some_inj.mp hres
      constructor
      · intro p hp
        exact Option.noConfusion hp
      · intro _ p2 hp2 hlast
        have hclosed : ∀ x ∈ v, ∀ n, stepOK g x n → n ∈ v := by
          intro x hx
          rcases hinv.closed x hx with ⟨e, he, -⟩ | h
          · exact absurd he (List.not_mem_nil e)
          · exact h
        have hall := path_all_mem g v hclosed p2 start hinv.start_vis hp2.1 hp2.2
        have htmem : target ∈ p2 := by
          obtain ⟨hne, heq⟩ := List.mem_getLast?_eq_getLast
            (show target ∈ p2.getLast? by rw [hlast]; rfl)
          rw [heq]
          exact List.getLast_mem hne
        obtain ⟨e, he, -⟩ := hinv.tgt_entry (hall target htmem)
        exact absurd he (List.not_mem_nil e)
    | (current, path) :: rest =>
      rw [bfsNoRocksLoopO] at hres
      by_cases ht : current = target
      · rw [if_pos ht] at hres
        obtain rfl : (some path : Option (List Pos)) = res := Option.some_inj.mp hres
        have hhead := hinv.entries_valid (current, path) (List.mem_cons_self _ _)
        constructor
        · intro p hp
          obtain rfl : path = p := Option.some_inj.mp hp
          refine ⟨hhead.1, ?_, ?_⟩
          · rw [← ht]
            exact hhead.2
          · intro p2 h2 hl2
            refine hinv.entries_min (current, path) (List.mem_cons_self _ _) p2 h2 ?_
            rw [ht]
            exact hl2
        · intro habs
          exact Option.noConfusion habs
      · rw [if_neg ht] at hres
        exact ih _ _ (nrinv_step g start target current path rest v hinv ht) res hres

set_option maxRecDepth 10000 in
/-- C2.  When the goal is reachable from the (non-rock) start through valid
non-rock cells, the rock-free BFS returns a route: it starts at the start,
ends at the goal, traverses no obstacle cell, and its length is minimal among
all rock-free routes — i.e. it equals the true BFS shortest-path distance
over the non-obstacle grid graph. -/
theorem c2_theorem (g : Grid) (start target : Pos) (p0 : List Pos)
    (hstart : isRock g start = false)
    (hreach : NoRockPath g start p0 ∧ p0.getLast? = some target) :
    ∃ r, breadthFirstSearchNoRocks g start target = some r ∧
      NoRockPath g start r ∧ r.head? = some start ∧ r.getLast? = some target ∧
      (∀ x ∈ r, isRock g x = false) ∧
      ∀ p2, NoRockPath g start p2 → p2.getLast? = some target →
        r.length ≤ p2.length := by
  have hinv0 : NRInv g start target [(start, [start])] [start] := by
    refine ⟨?_, ?_, ?_, ?_, ?_, ?_, ?_, ?_, ?_, ?_, ?_⟩
    · intro e he
      obtain rfl : e = (start, [start]) := by simpa using he
      exact ⟨⟨rfl, List.chain'_singleton start⟩, rfl⟩
    · intro e he
      obtain rfl : e = (start, [start]) := by simpa using he
      simp
    · simp
    · intro a ha b hb
      obtain rfl : a = (start, [start]) := by simpa using ha
      obtain rfl : b = (start, [start]) := by simpa using hb
      simp
    · intro x hx
      have hxs : x = start := by simpa using hx
      rw [hxs]
      exact Or.inl ⟨(start, [start]), by simp, rfl⟩
    · intro htv
      have hts : target = start := by simpa using htv
      rw [hts]
      exact ⟨(start, [start]), by simp, rfl⟩
    · simp
    · intro y p hp hpl hyv e hh
      obtain rfl : (start, [start]) = e := by simpa using hh
      show ([start] : List Pos).length + 1 ≤ p.length
      have hys : y ≠ start := by
        intro h
        exact hyv (by simp [h])
      have h1 := noRockPath_length_pos g start p hp
      rcases Nat.lt_or_ge p.length 2 with h2 | h2
      · exact absurd (noRockPath_singleton g start p y hp hpl (by omega)) hys
      · simpa using h2
    · intro e he p hp hpl
      obtain rfl : e = (start, [start]) := by simpa using he
      have := noRockPath_length_pos g start p hp
      simpa using this
    · simp
    · intro x hx
      obtain rfl : x = start := by simpa using hx
      exact Or.inl rfl
  have htot : (bfsNoRocksLoopO g target bfsFuel [(start, [start])] [start]).isSome
      = true := by
    refine bfsNoRocksLoopO_total g target bfsFuel _ _ ?_
    have hb : unvisitedCount [start] ≤ 100 := by
      unfold unvisitedCount
      calc (boundedFinset \ [start].toFinset).card
          ≤ boundedFinset.card := Finset.card_le_card (Finset.sdiff_subset)
        _ ≤ allBounded.length := List.toFinset_card_le allBounded
        _ = 100 := rfl
    have hf : bfsFuel = 1000000 := rfl
    have hl : ([(start, [start])] : List (Pos × List Pos)).length = 1 := rfl
    rw [hl, hf]
    omega
  obtain ⟨res, hres⟩ := Option.isSome_iff_exists.mp htot
  have hcorr := bfsNoRocksLoopO_correct g start target bfsFuel _ _ hinv0 res hres
  rcases res with _ | r
  · exact absurd trivial (fun _ => hcorr.2 rfl p0 hreach.1 hreach.2)
  · obtain ⟨hval, hlast, hmin⟩ := hcorr.1 r rfl
    refine ⟨r, ?_, hval, hval.1, hlast, ?_, hmin⟩
    · unfold breadthFirstSearchNoRocks
      rw [hres]
      rfl
    · exact path_no_rock g r start hstart hval.1 hval.2

/-- C2 witness: in the rock-free world `exW3` the corridor
(0,0)–(1,0)–(2,0) is a valid reachability witness, and the search returns a
shortest rock-free route. -/
theorem c2_theorem_witness :
    ∃ r, breadthFirstSearchNoRocks exW3.grid ((0 : Int), (0 : Int))
        ((2 : Int), (0 : Int)) = some r ∧
      NoRockPath exW3.grid ((0 : Int), (0 : Int)) r ∧
      r.head? = some ((0 : Int), (0 : Int)) ∧
      r.getLast? = some ((2 : Int), (0 : Int)) ∧
      (∀ x ∈ r, isRock exW3.grid x = false) ∧
      ∀ p2, NoRockPath exW3.grid ((0 : Int), (0 : Int)) p2 →
        p2.getLast? = some ((2 : Int), (0 : Int)) → r.length ≤ p2.length :=
  c2_theorem exW3.grid ((0 : Int), (0 : Int)) ((2 : Int), (0 : Int))
    [((0 : Int), (0 : Int)), (1, 0), (2, 0)] (by decide)
    ⟨⟨by decide,
      List.chain'_cons.mpr ⟨⟨by decide, by decide⟩,
        List.chain'_cons.mpr ⟨⟨by decide, by decide⟩,
          List.chain'_singleton _⟩⟩⟩,
     by decide⟩

/-! ## Claim C6: acting on a rock needs a credit and path relevance -/

/-- C6.  When the player faces a Rock cell, `should_use_action` can recommend
acting only if the player holds at least one collected-stick credit and the
rock's position lies on the committed route; in particular an agent with zero
credits (or no stats) facing a rock always gets a false recommendation —
whatever the cooldown state and the underlying action outcome. -/
theorem c6_theorem (w : World) (currentPath : List Pos)
    (canActNow attemptResult : Bool) (pl : PlayerV)
    (hpl : w.player = some pl)
    (hrock : w.grid.get (pl.position.1 + pl.facing.1, pl.position.2 + pl.facing.2) =
      some CellT.rock) :
    (shouldUseAction w currentPath canActNow attemptResult = true →
      (∃ s : Nat, w.stats = some s ∧ 0 < s) ∧
      (pl.position.1 + pl.facing.1, pl.position.2 + pl.facing.2) ∈ currentPath) ∧
    ((w.stats = none ∨ w.stats = some 0) →
      shouldUseAction w currentPath canActNow attemptResult = false) := by
  have htgt : getTargetPosition w =
      some (pl.position.1 + pl.facing.1, pl.position.2 + pl.facing.2) := by
    unfold getTargetPosition
    rw [hpl]
  constructor
  · intro h
    unfold shouldUseAction at h
    split at h
    · exact absurd h (by simp)
    · simp only [htgt] at h
      unfold shouldUseActionAt at h
      simp only [hrock] at h
      have hcan : canRemoveRock w currentPath
          (pl.position.1 + pl.facing.1, pl.position.2 + pl.facing.2) = true := by
        by_contra hc
        rw [if_neg hc] at h
        exact absurd h (by simp)
      unfold canRemoveRock at hcan
      rcases hstats : w.stats with _ | s
      · rw [hstats] at hcan
        exact absurd hcan (by simp)
      · rw [hstats] at hcan
        rw [Bool.and_eq_true, decide_eq_true_eq] at hcan
        refine ⟨⟨s, rfl, hcan.1⟩, ?_⟩
        simpa using hcan.2
  · intro hz
    unfold shouldUseAction
    split
    · rfl
    · simp only [htgt]
      unfold shouldUseActionAt
      simp only [hrock]
      have hcan : canRemoveRock w currentPath
          (pl.position.1 + pl.facing.1, pl.position.2 + pl.facing.2) = false := by
        unfold canRemoveRock
        rcases hz with hz | hz
        · rw [hz]
        · rw [hz]
          simp
      rw [hcan]
      simp

/-- C6 witness: in `exW2` the agent faces the rock at (1,0) with zero sticks
collected, and `should_use_action` refuses. -/
theorem c6_theorem_witness :
    shouldUseAction exW2 [((1 : Int), (0 : Int))] true true = false :=
  (c6_theorem exW2 [((1 : Int), (0 : Int))] true true
    { position := ((0 : Int), (0 : Int)), facing := ((1 : Int), (0 : Int)) }
    rfl (by decide)).2 (Or.inr rfl)

/-! ## Claim C9: the searches never mutate the grid -/

theorem bfsRocksLoopS_grid (target : Pos) (maxRocks : Budget) :
    ∀ (fuel : Nat) (g : Grid) (q : List RockEntry) (v : List RockState)
      (best : Option (List Pos)),
    (bfsRocksLoopS target maxRocks fuel g q v best).1 = g := by
  intro fuel
  induction fuel with
  | zero => intro g q v best; rfl
  | succ fuel ih =>
    intro g q v best
    match q with
    | [] => rfl
    | (current, path, removed) :: rest =>
      rw [bfsRocksLoopS]
      by_cases h1 : shouldSkipPath path best
      · rw [if_pos h1]
        exact ih g rest v best
      · rw [if_neg h1]
        by_cases h2 : current = target
        · rw [if_pos h2]
          exact ih g rest v (some path)
        · rw [if_neg h2]
          exact ih g _ _ best

theorem bfsNoRocksLoopS_grid (target : Pos) :
    ∀ (fuel : Nat) (g : Grid) (q : List (Pos × List Pos)) (v : List Pos),
    (bfsNoRocksLoopS target fuel g q v).1 = g := by
  intro fuel
  induction fuel with
  | zero => intro g q v; rfl
  | succ fuel ih =>
    intro g q v
    match q with
    | [] => rfl
    | (current, path) :: rest =>
      rw [bfsNoRocksLoopS]
      by_cases h2 : current = target
      · rw [if_pos h2]
      · rw [if_neg h2]
        exact ih g _ _

/-- C9.  No pathfinding operation mutates the grid: every iteration of the
budgeted and of the rock-free BFS loop passes the world's grid through
unchanged, and `find_path_to_position`, `find_path_without_rocks` and
`find_path_with_max_rocks` leave the world exactly as it was — the removal
sets are search-internal bookkeeping only. -/
theorem c9_theorem (w : World) (maxRocks : Int) (target : Pos) :
    (∀ (fuel : Nat) (g : Grid) (q : List RockEntry) (v : List RockState)
      (best : Option (List Pos)),
      (bfsRocksLoopS target w.stats fuel g q v best).1 = g) ∧
    (∀ (fuel : Nat) (g : Grid) (q : List (Pos × List Pos)) (v : List Pos),
      (bfsNoRocksLoopS target fuel g q v).1 = g) ∧
    (findPathToPositionS w target).2 = w ∧
    (findPathWithoutRocksS w target).2 = w ∧
    (findPathWithMaxRocksS w maxRocks target).2 = w := by
  have hto : (findPathToPositionS w target).2 = w := by
    unfold findPathToPositionS
    rcases hpl : w.player with _ | pl
    · rfl
    · simp only [bfsRocksLoopS_grid]
      rw [← hpl]
  refine ⟨bfsRocksLoopS_grid target w.stats, bfsNoRocksLoopS_grid target, hto, ?_, hto⟩
  unfold findPathWithoutRocksS
  rcases hpl : w.player with _ | pl
  · rfl
  · simp only [bfsNoRocksLoopS_grid]
    rw [← hpl]

/-! ## Claim C10: the visibility scan always returns a position -/

theorem foldl_isSome {α : Type} (f : Option (Pos × ℚ) → α → Option (Pos × ℚ))
    (hf : ∀ b a, b.isSome = true → (f b a).isSome = true) :
    ∀ (l : List α) (b : Option (Pos × ℚ)), b.isSome = true →
      (l.foldl f b).isSome = true := by
  intro l
  induction l with
  | nil => intro b h; exact h
  | cons a rest ih => intro b h; exact ih _ (hf b a h)

theorem scanStep_isSome (align : AlignFn) (g : Grid) (current target : Pos)
    (best : Option (Pos × ℚ)) (check : Pos) (h : best.isSome = true) :
    (scanStep align g current target best check).isSome = true := by
  rcases best with _ | ⟨bp, bs⟩
  · exact absurd h (by simp)
  · simp only [scanStep]
    split
    · split <;> rfl
    · rfl

theorem scanPerpendicular_isSome (align : AlignFn) (g : Grid)
    (current target main delta : Pos) (d : Int) (best : Option (Pos × ℚ))
    (h : best.isSome = true) :
    (scanPerpendicular align g current target main delta d best).isSome = true := by
  unfold scanPerpendicular
  exact foldl_isSome _ (fun b o => scanStep_isSome align g current target b _) _ best h

theorem truncDivSqrt_zero (s : Int) : truncDivSqrt 0 s = 0 := by
  unfold truncDivSqrt
  rw [if_pos le_rfl]
  have h1 : (0 * 0 : Int) / s = 0 := by rw [zero_mul, Int.zero_ediv]
  rw [h1]
  rfl

theorem checkMain_zero (current delta : Pos) :
    checkPosition (mainScanPosition current delta 0) delta 0 = current := by
  unfold mainScanPosition checkPosition
  by_cases hd : delta = (0, 0)
  · rw [if_pos hd, if_pos hd]
    simp
  · rw [if_neg hd, if_neg hd]
    simp [mul_zero, truncDivSqrt_zero]

theorem validCheck_self (g : Grid) (current : Pos)
    (h : isValidPosition g current = true) :
    isValidCheckPosition g current current = true := by
  unfold isValidCheckPosition manhattan
  rw [h]
  simp [VIEW_RADIUS]

/-- C10.  Whenever the agent's own position is in bounds and holds a valid
cell, the visibility scan never returns `None`: the distance-0 iteration
evaluates the agent's own position as a valid in-range candidate, so a best
position exists even when the agent is fully enclosed — for every
direction-alignment function and every target. -/
theorem c10_theorem (align : AlignFn) (g : Grid) (current target : Pos)
    (hcur : isValidPosition g current = true) :
    (findBestVisiblePosition align g current target).isSome = true := by
  unfold findBestVisiblePosition scanForBestPosition
  rw [Option.isSome_map']
  have hdist : scanDistances = 0 :: [1, 2, 3, 4] := by decide
  rw [hdist, List.foldl_cons]
  refine foldl_isSome _ (fun b d hb => scanPerpendicular_isSome align g current target
    _ _ d b hb) _ _ ?_
  have hor : offsetRange 0 = [0] := by decide
  unfold scanPerpendicular
  rw [hor]
  simp only [List.foldl_cons, List.foldl_nil]
  rw [checkMain_zero]
  simp only [scanStep]
  rw [if_pos (validCheck_self g current hcur)]
  rfl

/-- C10 witness: on `exW1` the agent at (0,0) is valid, so the scan towards
the far corner (9,9) yields a position. -/
theorem c10_theorem_witness :
    (findBestVisiblePosition (fun _ _ => (1 : ℚ) / 2) exW1.grid
      ((0 : Int), (0 : Int)) ((9 : Int), (9 : Int))).isSome = true :=
  c10_theorem (fun _ _ => (1 : ℚ) / 2) exW1.grid ((0 : Int), (0 : Int))
    ((9 : Int), (9 : Int)) (by decide)

/-! ## Claim C7: an in-range reachable target is returned directly -/

theorem foldl_preserve {α β : Type} (f : β → α → β) (P : β → Prop)
    (hf : ∀ b a, P b → P (f b a)) :
    ∀ (l : List α) (b : β), P b → P (l.foldl f b) := by
  intro l
  induction l with
  | nil => intro b h; exact h
  | cons a rest ih => intro b h; exact ih _ (hf b a h)

theorem foldl_flatMap {α β γ : Type} (h : α → List β) (f : γ → β → γ) :
    ∀ (l : List α) (b : γ),
    (l.flatMap h).foldl f b = l.foldl (fun acc d => (h d).foldl f acc) b := by
  intro l
  induction l with
  | nil => intro b; rfl
  | cons a rest ih =>
    intro b
    rw [List.flatMap_cons, List.foldl_append, List.foldl_cons, ih]

theorem localRockDensity_nonneg (g : Grid) (p : Pos) :
    0 ≤ localRockDensity g p := by
  unfold localRockDensity
  split
  · exact le_refl 0
  · positivity

theorem manhattan_nonneg (a b : Pos) : 0 ≤ manhattan a b := by
  unfold manhattan
  positivity

theorem manhattan_eq_zero (a b : Pos) (h : manhattan a b = 0) : a = b := by
  unfold manhattan at h
  have hn1 := abs_nonneg (a.1 - b.1)
  have hn2 := abs_nonneg (a.2 - b.2)
  have h1 : a.1 = b.1 := by
    have hz : |a.1 - b.1| = 0 := by linarith
    have := abs_eq_zero.mp hz
    linarith
  have h2 : a.2 = b.2 := by
    have hz : |a.2 - b.2| = 0 := by linarith
    have := abs_eq_zero.mp hz
    linarith
  exact Prod.ext_iff.mpr ⟨h1, h2⟩

theorem scorePosition_nonneg (align : AlignFn) (g : Grid) (pos target : Pos)
    (ha : 0 ≤ align pos target) (hb : align pos target ≤ 1) :
    0 ≤ scorePosition align g pos target := by
  unfold scorePosition
  have h1 : (0 : ℚ) ≤ (manhattan pos target : ℚ) := by
    exact_mod_cast manhattan_nonneg pos target
  have h2 : (0 : ℚ) ≤ 1 - align pos target * (3 / 10) := by linarith
  have h3 : (0 : ℚ) ≤ 1 + localRockDensity g pos * (1 / 2) := by
    linarith [localRockDensity_nonneg g pos]
  exact mul_nonneg (mul_nonneg h1 h2) h3

theorem scorePosition_self (align : AlignFn) (g : Grid) (target : Pos) :
    scorePosition align g target target = 0 := by
  unfold scorePosition manhattan
  simp

theorem scorePosition_zero (align : AlignFn) (g : Grid) (pos target : Pos)
    (ha : 0 ≤ align pos target) (hb : align pos target ≤ 1)
    (h : scorePosition align g pos target = 0) : pos = target := by
  unfold scorePosition at h
  have h2 : (0 : ℚ) < 1 - align pos target * (3 / 10) := by linarith
  have h3 : (0 : ℚ) < 1 + localRockDensity g pos * (1 / 2) := by
    linarith [localRockDensity_nonneg g pos]
  have h4 : (manhattan pos target : ℚ) = 0 := by
    rcases mul_eq_zero.mp h with h5 | h5
    · rcases mul_eq_zero.mp h5 with h6 | h6
      · exact h6
      · exact absurd h6 (ne_of_gt h2)
    · exact absurd h5 (ne_of_gt h3)
  exact manhattan_eq_zero pos target (by exact_mod_cast h4)

theorem scanStep_inv (align : AlignFn) (g : Grid) (current target : Pos)
    (b : Option (Pos × ℚ)) (c : Pos) (h : ScanInv align g target b) :
    ScanInv align g target (scanStep align g current target b c) := by
  rcases h with h | ⟨q, h⟩ <;> subst h <;> simp only [scanStep]
  · split
    · exact Or.inr ⟨c, rfl⟩
    · exact Or.inl rfl
  · split
    · split
      · exact Or.inr ⟨c, rfl⟩
      · exact Or.inr ⟨q, rfl⟩
    · exact Or.inr ⟨q, rfl⟩

theorem scanStep_mono (align : AlignFn) (g : Grid) (current target : Pos)
    (q : Pos) (s : ℚ) (c : Pos) :
    ∃ q2 s2, scanStep align g current target (some (q, s)) c = some (q2, s2) ∧
      s2 ≤ s := by
  simp only [scanStep]
  by_cases hv : isValidCheckPosition g current c = true
  · rw [if_pos hv]
    by_cases hlt : scorePosition align g c target < s
    · rw [if_pos hlt]
      exact ⟨c, _, rfl, le_of_lt hlt⟩
    · rw [if_neg hlt]
      exact ⟨q, s, rfl, le_refl s⟩
  · rw [if_neg hv]
    exact ⟨q, s, rfl, le_refl s⟩

theorem scanStep_low (align : AlignFn) (g : Grid) (current target : Pos)
    (b : Option (Pos × ℚ)) (c : Pos) (h : ScanLow b) :
    ScanLow (scanStep align g current target b c) := by
  obtain ⟨q, s, hb, hs⟩ := h
  subst hb
  obtain ⟨q2, s2, heq, hle⟩ := scanStep_mono align g current target q s c
  exact ⟨q2, s2, heq, le_trans hle hs⟩

theorem scanStep_target (align : AlignFn) (g : Grid) (current target : Pos)
    (b : Option (Pos × ℚ)) (hvalid : isValidCheckPosition g current target = true) :
    ScanLow (scanStep align g current target b target) := by
  rcases b with _ | ⟨q, s⟩
  · refine ⟨target, scorePosition align g target target, ?_, ?_⟩
    · simp only [scanStep]
      rw [if_pos hvalid]
    · rw [scorePosition_self]
  · simp only [scanStep]
    rw [if_pos hvalid]
    by_cases hlt : scorePosition align g target target < s
    · rw [if_pos hlt]
      exact ⟨target, _, rfl, le_of_eq (scorePosition_self align g target)⟩
    · rw [if_neg hlt]
      rw [scorePosition_self] at hlt
      push_neg at hlt
      exact ⟨q, s, rfl, hlt⟩

theorem checkPosition_shift (current delta : Pos) (d o : Int) :
    checkPosition (mainScanPosition current delta d) delta o =
      (current.1 + (relCheck delta d o).1, current.2 + (relCheck delta d o).2) := by
  unfold checkPosition mainScanPosition relCheck
  by_cases hd : delta = (0, 0)
  · rw [if_pos hd, if_pos hd, if_pos hd]
    simp
  · rw [if_neg hd, if_neg hd, if_neg hd]
    simp only [Prod.mk.injEq]
    constructor <;> ring

set_option maxHeartbeats 3200000 in
theorem hit_lemma (a b : Int) (h : |a| + |b| ≤ 4) :
    ∃ d ∈ scanDistances, ∃ o ∈ offsetRange d, relCheck (a, b) d o = (a, b) := by
  have h1 : -4 ≤ a := by linarith [neg_abs_le a, abs_nonneg b]
  have h2 : a ≤ 4 := by linarith [le_abs_self a, abs_nonneg b]
  have h3 : -4 ≤ b := by linarith [neg_abs_le b, abs_nonneg a]
  have h4 : b ≤ 4 := by linarith [le_abs_self b, abs_nonneg a]
  interval_cases a <;> interval_cases b <;> revert h <;> decide

/-- C7.  When the true target lies within the visibility radius (Manhattan
distance at most `VIEW_RADIUS`) and is itself a valid cell, the visibility
scan returns the target itself: the target is among the scanned candidates,
scores exactly 0, and every other candidate scores strictly more — for every
direction-alignment function with values in [0,1]. -/
theorem c7_theorem (align : AlignFn) (g : Grid) (current target : Pos)
    (halign : ∀ p t : Pos, 0 ≤ align p t ∧ align p t ≤ 1)
    (hval : isValidPosition g target = true)
    (hrad : manhattan current target ≤ VIEW_RADIUS) :
    findBestVisiblePosition align g current target = some target := by
  have hvalid : isValidCheckPosition g current target = true := by
    unfold isValidCheckPosition
    rw [hval]
    simpa using hrad
  have hperp : ∀ (d : Int) (main : Pos) (best : Option (Pos × ℚ)),
      scanPerpendicular align g current target main
        (target.1 - current.1, target.2 - current.2) d best =
      ((offsetRange d).map fun o =>
        checkPosition main (target.1 - current.1, target.2 - current.2) o).foldl
        (scanStep align g current target) best := by
    intro d main best
    unfold scanPerpendicular
    rw [List.foldl_map]
  have hflat : findBestVisiblePosition align g current target =
      ((scanDistances.flatMap fun d => (offsetRange d).map fun o =>
          checkPosition
            (mainScanPosition current (target.1 - current.1, target.2 - current.2) d)
            (target.1 - current.1, target.2 - current.2) o).foldl
        (scanStep align g current target) none).map (·.1) := by
    unfold findBestVisiblePosition scanForBestPosition
    rw [foldl_flatMap]
    simp only [hperp]
  have hΔ : ((current.1 + (target.1 - current.1, target.2 - current.2).1,
      current.2 + (target.1 - current.1, target.2 - current.2).2) : Pos) = target := by
    refine Prod.ext_iff.mpr ⟨?_, ?_⟩
    · show current.1 + (target.1 - current.1) = target.1
      ring
    · show current.2 + (target.2 - current.2) = target.2
      ring
  have habs : |target.1 - current.1| + |target.2 - current.2| ≤ 4 := by
    unfold manhattan VIEW_RADIUS at hrad
    rw [abs_sub_comm target.1 current.1, abs_sub_comm target.2 current.2]
    exact hrad
  obtain ⟨d, hd, o, ho, heq⟩ := hit_lemma _ _ habs
  have hcand : checkPosition
      (mainScanPosition current (target.1 - current.1, target.2 - current.2) d)
      (target.1 - current.1, target.2 - current.2) o = target := by
    rw [checkPosition_shift, heq]
    exact hΔ
  have hmem : target ∈ scanDistances.flatMap fun d => (offsetRange d).map fun o =>
      checkPosition
        (mainScanPosition current (target.1 - current.1, target.2 - current.2) d)
        (target.1 - current.1, target.2 - current.2) o := by
    rw [List.mem_flatMap]
    exact ⟨d, hd, List.mem_map.mpr ⟨o, ho, hcand⟩⟩
  obtain ⟨l1, l2, hsplit⟩ := List.append_of_mem hmem
  rw [hflat, hsplit, List.foldl_append, List.foldl_cons]
  have hinv1 : ScanInv align g target (l1.foldl (scanStep align g current target) none) :=
    foldl_preserve _ _ (fun b a hb => scanStep_inv align g current target b a hb)
      l1 none (Or.inl rfl)
  have hfinal := foldl_preserve (scanStep align g current target)
    (fun b => ScanInv align g target b ∧ ScanLow b)
    (fun b a hb => ⟨scanStep_inv align g current target b a hb.1,
      scanStep_low align g current target b a hb.2⟩) l2 _
    ⟨scanStep_inv align g current target _ target hinv1,
     scanStep_target align g current target _ hvalid⟩
  obtain ⟨hfi, hflow⟩ := hfinal
  obtain ⟨q2, s2, hfeq, hle⟩ := hflow
  rcases hfi with hnone | ⟨q, hq⟩
  · rw [hnone] at hfeq
    exact Option.noConfusion hfeq
  · rw [hq] at hfeq
    have hqq : q = q2 ∧ scorePosition align g q target = s2 := by
      have hpair := Option.some_inj.mp hfeq
      exact ⟨congrArg Prod.fst hpair, congrArg Prod.snd hpair⟩
    have hzero : scorePosition align g q target = 0 :=
      le_antisymm (hqq.2 ▸ hle)
        (scorePosition_nonneg align g q target (halign q target).1 (halign q target).2)
    rw [hq, scorePosition_zero align g q target (halign q target).1 (halign q target).2 hzero]
    rfl

/-- C7 witness: in `exW1` the stick at (2,0) is a valid cell two steps away,
and the scan returns it directly. -/
theorem c7_theorem_witness :
    findBestVisiblePosition (fun _ _ => (1 : ℚ) / 2) exW1.grid
      ((0 : Int), (0 : Int)) ((2 : Int), (0 : Int)) = some ((2 : Int), (0 : Int)) :=
  c7_theorem (fun _ _ => (1 : ℚ) / 2) exW1.grid ((0 : Int), (0 : Int))
    ((2 : Int), (0 : Int)) (fun _ _ => by norm_num) (by decide) (by decide)

/-! ## Claim C8: grid queries are total and silent on bad input -/

/-- C8.  `get_valid_neighbors` only ever returns in-bounds positions holding a
valid cell (for every query position, including out-of-bounds ones), and
`is_rock` on a position absent from the grid returns false: malformed input is
treated as non-walkable, never as an error. -/
theorem c8_theorem (g : Grid) (p : Pos) :
    (∀ q ∈ getValidNeighbors g p, isInBounds q = true ∧ isValidCell g q = true) ∧
    (g.get p = none → isRock g p = false) := by
  constructor
  · exact fun q hq => getValidNeighbors_sound g p q hq
  · intro h
    simp [isRock, h]

/-- C8 witness: the neighbour (1,0) of (0,0) in `exW1` is in bounds and valid,
and `is_rock` at the malformed position (-5,0) (absent from the grid) is
false. -/
theorem c8_theorem_witness :
    (isInBounds ((1 : Int), (0 : Int)) = true ∧
      isValidCell exW1.grid ((1 : Int), (0 : Int)) = true) ∧
    isRock exW1.grid ((-5 : Int), (0 : Int)) = false :=
  ⟨(c8_theorem exW1.grid ((0 : Int), (0 : Int))).1 ((1 : Int), (0 : Int)) (by decide),
   (c8_theorem exW1.grid ((-5 : Int), (0 : Int))).2 (by decide)⟩

end CaveIn
